import Mathlib

/-!
Verification development for the `MemoryGraph` module
(`mem0/memory/graph_memory.py`): a per-user knowledge graph that extracts
entities and relations from text with a language model, merges them into a
Neo4j-style labeled property graph, and supports similarity-ranked retrieval.

The graph store is modelled as explicit lists of nodes and edges; each Cypher
query issued by the module is embedded as a Lean function on that state,
following Neo4j semantics for the exact query text used by the source.  The
language model, the embedding provider and the BM25 scorer are external
collaborators and are modelled as oracle functions supplied as parameters.
Rational numbers stand in for the store's float arithmetic; the 4-decimal
rounding of cosine similarity performed inside the retrieval query is computed
exactly (and proved equal to the real-number specification `round (10^4 * d /
Real.sqrt xy) / 10^4`).
-/

/- Batteries marks the arithmetic of `Rat` irreducible; re-opening it lets
concrete witnesses evaluate by `decide`. -/
attribute [local semireducible] Rat.mul Rat.add Rat.inv Rat.sub Rat.ofScientific

set_option autoImplicit false

namespace Mem0

/-- Python `s.lower().replace(" ", "_")` (lines 105-109, 164-165, 295 of the
source).  For the single-character pattern `" "`, `str.replace` is a
character-wise substitution; `lower` is modelled on ASCII. -/
def normalize (s : String) : String :=
  String.mk (s.data.map (fun c => if c.toLower = ' ' then '_' else c.toLower))

/-- The dot product `reduce(dot = 0.0, i IN range(0, size(a)-1) | dot + a[i]*b[i])`
of the retrieval query, over the indices of the first list. -/
def dotQ (a b : List ℚ) : ℚ :=
  (List.zipWith (fun x y => x * y) a b).sum

/-- Squared L2 norm `reduce(l2 = 0.0, i IN range(0, size(a)-1) | l2 + a[i]*a[i])`. -/
def normSq (a : List ℚ) : ℚ := dotQ a a

/-- Binary-search step for the integer square root of `n`, kept structurally
recursive on a fuel argument so that the kernel can evaluate it. -/
def isqrtGo (n : ℕ) : ℕ → ℕ → ℕ → ℕ
  | 0, lo, _ => lo
  | fuel + 1, lo, hi =>
    if (lo + hi) / 2 = lo then lo
    else if (lo + hi) / 2 * ((lo + hi) / 2) ≤ n then isqrtGo n fuel ((lo + hi) / 2) hi
    else isqrtGo n fuel lo ((lo + hi) / 2)

/-- Integer square root (largest `k` with `k * k ≤ n`). -/
def isqrt (n : ℕ) : ℕ := isqrtGo n (n + 2) 0 (n + 1)

theorem isqrtGo_spec (n : ℕ) :
    ∀ (fuel lo hi : ℕ), lo * lo ≤ n → n < hi * hi → lo < hi → hi ≤ lo + fuel + 1 →
      isqrtGo n fuel lo hi * isqrtGo n fuel lo hi ≤ n ∧
        n < (isqrtGo n fuel lo hi + 1) * (isqrtGo n fuel lo hi + 1) := by
  intro fuel
  induction fuel with
  | zero =>
    intro lo hi hlo hhi hlt hfu
    have : hi = lo + 1 := by omega
    subst this
    exact ⟨hlo, hhi⟩
  | succ fuel ih =>
    intro lo hi hlo hhi hlt hfu
    simp only [isqrtGo]
    by_cases hmid : (lo + hi) / 2 = lo
    · have : hi = lo + 1 := by omega
      subst this
      simp only [hmid, if_pos rfl]
      exact ⟨hlo, hhi⟩
    · have h1 : lo < (lo + hi) / 2 := by omega
      have h2 : (lo + hi) / 2 < hi := by omega
      by_cases hsq : (lo + hi) / 2 * ((lo + hi) / 2) ≤ n
      · simp only [if_neg hmid, if_pos hsq]
        exact ih ((lo + hi) / 2) hi hsq hhi h2 (by omega)
      · simp only [if_neg hmid, if_neg hsq]
        exact ih lo ((lo + hi) / 2) hlo (by omega) h1 (by omega)

theorem isqrt_le (n : ℕ) : isqrt n * isqrt n ≤ n :=
  (isqrtGo_spec n (n + 2) 0 (n + 1) (by omega) (by nlinarith) (by omega) (by omega)).1

theorem lt_succ_isqrt (n : ℕ) : n < (isqrt n + 1) * (isqrt n + 1) :=
  (isqrtGo_spec n (n + 2) 0 (n + 1) (by omega) (by nlinarith) (by omega) (by omega)).2

/-- Decide `t * Real.sqrt m <= b` by integer arithmetic (squaring with sign
analysis). -/
def leMulSqrt (t : ℚ) (m : ℕ) (b : ℚ) : Bool :=
  if 0 ≤ t then decide (0 ≤ b) && decide (t ^ 2 * m ≤ b ^ 2)
  else decide (0 ≤ b) || decide (b ^ 2 ≤ t ^ 2 * m)

/-- `round (b / Real.sqrt m)` for `0 < m`, computed with integer arithmetic. -/
def roundDivSqrt (b : ℚ) (m : ℕ) : ℤ :=
  let a : ℕ := isqrt (b ^ 2 / (m : ℚ)).floor.toNat
  if 0 ≤ b then
    if leMulSqrt (2 * (a : ℚ) + 1) m (2 * b) then (a : ℤ) + 1 else (a : ℤ)
  else
    if leMulSqrt (-(2 * (a : ℚ) + 1)) m (2 * b) then -(a : ℤ) else -(a : ℤ) - 1

/-- `round(d / (sqrt of xy), 4)` as an exact rational: the `similarity` column
computed by the retrieval query, where `xy` is the product of the two squared
norms.  For `xy = 0` the store's float division yields `NaN`, which fails the
threshold comparison exactly as the junk value `0` does here. -/
def simRound4 (d xy : ℚ) : ℚ :=
  if xy ≤ 0 then 0
  else (roundDivSqrt (10 ^ 4 * d * (xy.den : ℚ)) (xy.num.toNat * xy.den) : ℚ) / 10 ^ 4

/-- The similarity the retrieval query computes for a stored embedding `v`
against the candidate embedding `e`: Cypher list indexing out of range yields
`null`, so a stored embedding longer than the candidate one produces a `null`
similarity (filtered out); otherwise the rounded cosine similarity. -/
def storedSim (v e : List ℚ) : Option ℚ :=
  if v.length ≤ e.length then some (simRound4 (dotQ v e) (normSq v * normSq e)) else none

theorem leMulSqrt_iff (t : ℚ) (m : ℕ) (b : ℚ) :
    leMulSqrt t m b = true ↔ (t : ℝ) * Real.sqrt m ≤ (b : ℝ) := by
  unfold leMulSqrt
  by_cases ht : (0 : ℚ) ≤ t
  · have ht' : (0 : ℝ) ≤ (t : ℝ) := by exact_mod_cast ht
    simp only [if_pos ht, Bool.and_eq_true, decide_eq_true_eq]
    constructor
    · rintro ⟨hb, hsq⟩
      have hb' : (0 : ℝ) ≤ (b : ℝ) := by exact_mod_cast hb
      have hsq' : (t : ℝ) ^ 2 * m ≤ (b : ℝ) ^ 2 := by exact_mod_cast hsq
      have h1 := Real.sqrt_le_sqrt hsq'
      rwa [Real.sqrt_mul (sq_nonneg _), Real.sqrt_sq ht', Real.sqrt_sq hb'] at h1
    · intro h
      have h0 : (0 : ℝ) ≤ (t : ℝ) * Real.sqrt m := mul_nonneg ht' (Real.sqrt_nonneg _)
      have hb' : (0 : ℝ) ≤ (b : ℝ) := le_trans h0 h
      refine ⟨by exact_mod_cast hb', ?_⟩
      have h2 : ((t : ℝ) * Real.sqrt m) ^ 2 ≤ (b : ℝ) ^ 2 := pow_le_pow_left₀ h0 h 2
      rw [mul_pow, Real.sq_sqrt (by positivity : (0 : ℝ) ≤ (m : ℝ))] at h2
      exact_mod_cast h2
  · have ht' : (t : ℝ) < 0 := by exact_mod_cast not_le.mp ht
    simp only [if_neg ht, Bool.or_eq_true, decide_eq_true_eq]
    constructor
    · rintro (hb | hsq)
      · exact le_trans (mul_nonpos_iff.mpr (Or.inr ⟨ht'.le, Real.sqrt_nonneg _⟩))
          (by exact_mod_cast hb)
      · rcases le_or_lt 0 (b : ℝ) with hb | hb
        · exact le_trans (mul_nonpos_iff.mpr (Or.inr ⟨ht'.le, Real.sqrt_nonneg _⟩)) hb
        · have h1 := Real.sqrt_le_sqrt (show ((b : ℝ) ^ 2) ≤ (t : ℝ) ^ 2 * m by exact_mod_cast hsq)
          rw [Real.sqrt_mul (sq_nonneg _), Real.sqrt_sq_eq_abs, Real.sqrt_sq_eq_abs,
            abs_of_neg hb, abs_of_neg ht'] at h1
          linarith
    · intro h
      rcases le_or_lt 0 (b : ℝ) with hb | hb
      · exact Or.inl (by exact_mod_cast hb)
      · refine Or.inr ?_
        have h2 : -(b : ℝ) ≤ -((t : ℝ) * Real.sqrt m) := by linarith
        have h3 := pow_le_pow_left₀ (by linarith : (0 : ℝ) ≤ -(b : ℝ)) h2 2
        have h5 : Real.sqrt m ^ 2 = (m : ℝ) := Real.sq_sqrt (by positivity)
        have h4 : (b : ℝ) ^ 2 ≤ (t : ℝ) ^ 2 * m := by nlinarith [h3, h5]
        exact_mod_cast h4

theorem roundDivSqrt_eq (b : ℚ) (m : ℕ) (hm : 0 < m) :
    roundDivSqrt b m = round ((b : ℝ) / Real.sqrt m) := by
  have hm' : (0 : ℝ) < (m : ℝ) := by exact_mod_cast hm
  have hsm : 0 < Real.sqrt m := Real.sqrt_pos.mpr hm'
  set q : ℚ := b ^ 2 / (m : ℚ) with hq
  set a : ℕ := isqrt q.floor.toNat with ha
  set x : ℝ := (b : ℝ) / Real.sqrt m with hx
  have hq0 : 0 ≤ q := by
    rw [hq]; positivity
  have hfl0 : 0 ≤ q.floor := Rat.le_floor.mpr (by exact_mod_cast hq0)
  have hxsq : x ^ 2 = (q : ℝ) := by
    rw [hx, div_pow, Real.sq_sqrt hm'.le, hq]
    push_cast
    ring
  have habs : |x| = Real.sqrt (q : ℝ) := by
    rw [← hxsq, Real.sqrt_sq_eq_abs]
  have h1 : (a : ℝ) ≤ |x| := by
    rw [habs]
    have hle : ((a * a : ℕ) : ℚ) ≤ q := by
      calc ((a * a : ℕ) : ℚ) ≤ ((q.floor.toNat : ℕ) : ℚ) := by
            exact_mod_cast isqrt_le q.floor.toNat
        _ = ((q.floor : ℤ) : ℚ) := by exact_mod_cast congrArg Int.cast (Int.toNat_of_nonneg hfl0)
        _ ≤ q := Rat.le_floor.mp le_rfl
    have hle' : ((a : ℝ)) ^ 2 ≤ (q : ℝ) := by
      have : ((a * a : ℕ) : ℝ) ≤ ((q : ℚ) : ℝ) := by exact_mod_cast hle
      calc ((a : ℝ)) ^ 2 = ((a * a : ℕ) : ℝ) := by push_cast; ring
        _ ≤ (q : ℝ) := this
    exact (Real.le_sqrt (by positivity) (by exact_mod_cast hq0)).mpr hle'
  have h2 : |x| < (a : ℝ) + 1 := by
    rw [habs]
    have hq_lt : q < ((q.floor : ℤ) : ℚ) + 1 := by
      by_contra hcon
      push_neg at hcon
      have : q.floor + 1 ≤ q.floor := Rat.le_floor.mpr (by push_cast; linarith)
      omega
    have hlt : (q : ℝ) < ((a : ℝ) + 1) ^ 2 := by
      have hfan := lt_succ_isqrt q.floor.toNat
      have h3 : ((q.floor : ℤ) : ℚ) + 1 ≤ (((a + 1) * (a + 1) : ℕ) : ℚ) := by
        have : q.floor.toNat + 1 ≤ (a + 1) * (a + 1) := hfan
        have h4 : ((q.floor.toNat : ℤ) : ℚ) = ((q.floor : ℤ) : ℚ) := by
          exact_mod_cast congrArg Int.cast (Int.toNat_of_nonneg hfl0)
        calc ((q.floor : ℤ) : ℚ) + 1 = ((q.floor.toNat : ℤ) : ℚ) + 1 := by rw [h4]
          _ ≤ (((a + 1) * (a + 1) : ℕ) : ℚ) := by exact_mod_cast this
      have : q < (((a + 1) * (a + 1) : ℕ) : ℚ) := lt_of_lt_of_le hq_lt h3
      have : ((q : ℚ) : ℝ) < ((((a + 1) * (a + 1) : ℕ) : ℚ) : ℝ) := by exact_mod_cast this
      calc (q : ℝ) < ((((a + 1) * (a + 1) : ℕ) : ℚ) : ℝ) := this
        _ = ((a : ℝ) + 1) ^ 2 := by push_cast; ring
    have := Real.sqrt_lt_sqrt (by exact_mod_cast hq0) hlt
    rwa [Real.sqrt_sq (by positivity)] at this
  rcases le_or_lt 0 b with hb | hb
  · have hb' : (0 : ℝ) ≤ (b : ℝ) := by exact_mod_cast hb
    have hx0 : 0 ≤ x := div_nonneg hb' hsm.le
    rw [abs_of_nonneg hx0] at h1 h2
    simp only [roundDivSqrt, if_pos hb, ← ha]
    by_cases hL : leMulSqrt (2 * (a : ℚ) + 1) m (2 * b) = true
    · simp only [if_pos hL]
      have hle := (leMulSqrt_iff _ _ _).mp hL
      push_cast at hle
      have hxge : (a : ℝ) + 1 / 2 ≤ x := by
        rw [hx, le_div_iff₀ hsm]
        linarith
      rw [round_eq]
      symm
      rw [Int.floor_eq_iff]
      constructor
      · push_cast
        linarith
      · push_cast
        linarith
    · simp only [if_neg hL]
      have hlt' : ¬ ((2 * (a : ℝ) + 1) * Real.sqrt m ≤ ((2 * b : ℚ) : ℝ)) := by
        intro hcon
        exact hL ((leMulSqrt_iff _ _ _).mpr (by push_cast; push_cast at hcon; linarith))
      push_neg at hlt'
      push_cast at hlt'
      have hxlt : x < (a : ℝ) + 1 / 2 := by
        rw [hx, div_lt_iff₀ hsm]
        linarith
      rw [round_eq]
      symm
      rw [Int.floor_eq_iff]
      constructor
      · push_cast
        linarith
      · push_cast
        linarith
  · have hb' : (b : ℝ) < 0 := by exact_mod_cast hb
    have hx0 : x < 0 := div_neg_of_neg_of_pos hb' hsm
    rw [abs_of_neg hx0] at h1 h2
    simp only [roundDivSqrt, if_neg (not_le.mpr hb), ← ha]
    by_cases hL : leMulSqrt (-(2 * (a : ℚ) + 1)) m (2 * b) = true
    · simp only [if_pos hL]
      have hle := (leMulSqrt_iff _ _ _).mp hL
      push_cast at hle
      have hxge : -((a : ℝ) + 1 / 2) ≤ x := by
        rw [hx, le_div_iff₀ hsm]
        linarith
      rw [round_eq]
      symm
      rw [Int.floor_eq_iff]
      constructor
      · push_cast
        linarith
      · push_cast
        linarith
    · simp only [if_neg hL]
      have hlt' : ¬ ((-(2 * (a : ℝ) + 1)) * Real.sqrt m ≤ ((2 * b : ℚ) : ℝ)) := by
        intro hcon
        exact hL ((leMulSqrt_iff _ _ _).mpr (by push_cast; push_cast at hcon; linarith))
      push_neg at hlt'
      push_cast at hlt'
      have hxlt : x < -((a : ℝ) + 1 / 2) := by
        rw [hx, div_lt_iff₀ hsm]
        linarith
      rw [round_eq]
      symm
      rw [Int.floor_eq_iff]
      constructor
      · push_cast
        linarith
      · push_cast
        linarith

/-- The exact rational similarity equals the real-number specification:
`round` to 4 decimal places of the cosine quotient `d / sqrt xy`. -/
theorem simRound4_eq_real (d xy : ℚ) (hxy : 0 < xy) :
    (simRound4 d xy : ℝ) =
      ((round ((10 ^ 4 : ℝ) * ((d : ℝ) / Real.sqrt (xy : ℝ))) : ℤ) : ℝ) / 10 ^ 4 := by
  have hnum : 0 < xy.num := Rat.num_pos.mpr hxy
  have hden : 0 < xy.den := xy.pos
  have hm : 0 < xy.num.toNat * xy.den := Nat.mul_pos (by omega) hden
  have htn : ((xy.num.toNat : ℕ) : ℝ) = ((xy.num : ℤ) : ℝ) := by
    exact_mod_cast Int.toNat_of_nonneg hnum.le
  have hcast : ((xy.num.toNat * xy.den : ℕ) : ℝ) = (xy.num : ℝ) * (xy.den : ℝ) := by
    push_cast
    rw [htn]
  have hxyr : (0 : ℝ) < (xy : ℝ) := by exact_mod_cast hxy
  have hdenr : (0 : ℝ) < (xy.den : ℝ) := by exact_mod_cast hden
  have hnumr : (0 : ℝ) < (xy.num : ℝ) := by exact_mod_cast hnum
  have hxy_eq : (xy : ℝ) = (xy.num : ℝ) / (xy.den : ℝ) := by
    exact_mod_cast congrArg Rat.cast (Rat.num_div_den xy).symm
  have hsqrt_eq : Real.sqrt ((xy.num.toNat * xy.den : ℕ) : ℝ) =
      Real.sqrt (xy : ℝ) * (xy.den : ℝ) := by
    rw [hcast, hxy_eq]
    rw [show (xy.num : ℝ) * (xy.den : ℝ) = ((xy.num : ℝ) / (xy.den : ℝ)) * ((xy.den : ℝ)) ^ 2 by
      field_simp
      ring]
    rw [Real.sqrt_mul (by positivity), Real.sqrt_sq hdenr.le]
  have hdiv : ((10 ^ 4 * d * (xy.den : ℚ) : ℚ) : ℝ) / Real.sqrt ((xy.num.toNat * xy.den : ℕ) : ℝ) =
      (10 ^ 4 : ℝ) * ((d : ℝ) / Real.sqrt (xy : ℝ)) := by
    rw [hsqrt_eq]
    have hs : 0 < Real.sqrt (xy : ℝ) := Real.sqrt_pos.mpr hxyr
    push_cast
    field_simp
    ring
  rw [simRound4, if_neg (not_le.mpr hxy)]
  rw [roundDivSqrt_eq _ _ hm]
  rw [show ((((round ((((10 ^ 4 * d * (xy.den : ℚ)) : ℚ) : ℝ) / Real.sqrt ((xy.num.toNat * xy.den : ℕ) : ℝ)) : ℤ) : ℚ) / 10 ^ 4 : ℚ) : ℝ) =
      ((round ((((10 ^ 4 * d * (xy.den : ℚ)) : ℚ) : ℝ) / Real.sqrt ((xy.num.toNat * xy.den : ℕ) : ℝ)) : ℤ) : ℝ) / 10 ^ 4 by push_cast; ring]
  rw [hdiv]

/-! ## The graph store

A Neo4j-style labeled property graph, holding exactly the properties this
module reads or writes: `name`, `user_id`, `embedding`, `created`, plus node
labels and relationship types.  `nextId` models the store's element-id
allocator. -/

structure GNode where
  nid : ℕ
  labels : List String
  name : String
  user_id : String
  embedding : Option (List ℚ)
  created : Option ℕ
deriving DecidableEq, Repr

structure GEdge where
  eid : ℕ
  src : ℕ
  dst : ℕ
  typ : String
  created : Option ℕ
deriving DecidableEq, Repr

structure Graph where
  nodes : List GNode
  edges : List GEdge
  nextId : ℕ
deriving DecidableEq, Repr

def emptyGraph : Graph := ⟨[], [], 0⟩

/-- Store well-formedness: element ids are unique, edges join existing nodes,
and `nextId` is fresh. -/
def Graph.WF (g : Graph) : Prop :=
  (g.nodes.map GNode.nid).Nodup ∧ (g.edges.map GEdge.eid).Nodup ∧
  (∀ e ∈ g.edges, (∃ n ∈ g.nodes, n.nid = e.src) ∧ (∃ n ∈ g.nodes, n.nid = e.dst)) ∧
  (∀ n ∈ g.nodes, n.nid < g.nextId) ∧ (∀ e ∈ g.edges, e.eid < g.nextId)

instance (g : Graph) : Decidable g.WF := by
  unfold Graph.WF
  infer_instance

def Graph.node? (g : Graph) (i : ℕ) : Option GNode :=
  g.nodes.find? (fun n => n.nid == i)

/-- Nodes matched by the label-free pattern `(n {name: $nm, user_id: $u})`
(Cypher property patterns without a label match any node carrying the
properties). -/
def matchNU (nm u : String) (g : Graph) : List GNode :=
  g.nodes.filter (fun n => n.name == nm && n.user_id == u)

/-- The labeled pattern `(n:lab {name: $nm, user_id: $u})` as a predicate. -/
def predB (lab nm u : String) (n : GNode) : Bool :=
  n.labels.contains lab && n.name == nm && n.user_id == u

/-- Nodes matched by the labeled pattern `(n:lab {name: $nm, user_id: $u})`. -/
def matchLNU (lab nm u : String) (g : Graph) : List GNode :=
  g.nodes.filter (predB lab nm u)

/-- The `ON MATCH SET n.embedding = $v` update applied to one node when it
matches the labeled pattern. -/
def nodeUpd (lab nm u : String) (v : List ℚ) (n : GNode) : GNode :=
  if predB lab nm u n then { n with embedding := some v } else n

/-! ## Sorting (kernel-evaluable stable insertion sort)

Neo4j's `ORDER BY` and numpy's `argsort` leave the order of ties unspecified;
a stable insertion sort is one concrete refinement of both. -/

def insertBy {α : Type} (le : α → α → Bool) (x : α) : List α → List α
  | [] => [x]
  | y :: ys => if le x y then x :: y :: ys else y :: insertBy le x ys

def sortBy {α : Type} (le : α → α → Bool) : List α → List α
  | [] => []
  | x :: xs => insertBy le x (sortBy le xs)

theorem insertBy_perm {α : Type} (le : α → α → Bool) (x : α) (l : List α) :
    (insertBy le x l).Perm (x :: l) := by
  induction l with
  | nil => exact List.Perm.refl _
  | cons y ys ih =>
    simp only [insertBy]
    by_cases h : le x y = true
    · simp [h]
    · rw [if_neg h]
      exact List.Perm.trans (List.Perm.cons y ih) (List.Perm.swap x y ys)

theorem sortBy_perm {α : Type} (le : α → α → Bool) (l : List α) : (sortBy le l).Perm l := by
  induction l with
  | nil => exact List.Perm.refl _
  | cons x xs ih =>
    exact List.Perm.trans (insertBy_perm le x (sortBy le xs)) (List.Perm.cons x ih)

/-! ## The retrieval query (`_search`, lines 174-197)

```
MATCH (n) WHERE n.embedding IS NOT NULL AND n.user_id = $user_id
WITH n, round(dot / (sqrt(l2n) * sqrt(l2q)), 4) AS similarity
WHERE similarity >= $threshold
MATCH (n)-[r]->(m) RETURN n..., r..., m..., similarity
UNION  (same, with incoming edges MATCH (m)-[r]->(n))
ORDER BY similarity DESC
```
-/

structure SearchRow where
  source : String
  source_id : ℕ
  relation : String
  relation_id : ℕ
  destination : String
  destination_id : ℕ
  similarity : ℚ
deriving DecidableEq, Repr

/-- Nodes passing the `WHERE` clauses of the retrieval query, paired with the
computed (4-decimal-rounded) similarity. -/
def includedNodes (e : List ℚ) (threshold : ℚ) (u : String) (g : Graph) :
    List (GNode × ℚ) :=
  g.nodes.filterMap (fun n =>
    if n.user_id = u then
      match n.embedding with
      | some v =>
        match storedSim v e with
        | some s => if threshold ≤ s then some (n, s) else none
        | none => none
      | none => none
    else none)

/-- Rows of the first `UNION` arm: outgoing edges `MATCH (n)-[r]->(m)`. -/
def outRows (g : Graph) (n : GNode) (s : ℚ) : List SearchRow :=
  g.edges.filterMap (fun r =>
    if r.src = n.nid then
      match g.node? r.dst with
      | some m => some ⟨n.name, n.nid, r.typ, r.eid, m.name, m.nid, s⟩
      | none => none
    else none)

/-- Rows of the second `UNION` arm: incoming edges `MATCH (m)-[r]->(n)`. -/
def inRows (g : Graph) (n : GNode) (s : ℚ) : List SearchRow :=
  g.edges.filterMap (fun r =>
    if r.dst = n.nid then
      match g.node? r.src with
      | some m => some ⟨m.name, m.nid, r.typ, r.eid, n.name, n.nid, s⟩
      | none => none
    else none)

/-- One execution of the retrieval query for one candidate embedding `e`:
both arms, `UNION` (set union, deduplicating), `ORDER BY similarity DESC`. -/
def searchQueryExec (e : List ℚ) (threshold : ℚ) (u : String) (g : Graph) :
    List SearchRow :=
  let included := includedNodes e threshold u g
  let arm1 := included.flatMap (fun p => outRows g p.1 p.2)
  let arm2 := included.flatMap (fun p => inRows g p.1 p.2)
  sortBy (fun r1 r2 => decide (r2.similarity ≤ r1.similarity)) ((arm1 ++ arm2).dedup)

/-! ## The upsert query of `add` (lines 116-136)

```
MERGE (n:S {name: $source_name, user_id: $user_id})
ON CREATE SET n.created = timestamp(), n.embedding = $source_embedding
ON MATCH SET n.embedding = $source_embedding
MERGE (m:D {name: $dest_name, user_id: $user_id}) ... (same)
MERGE (n)-[rel:R]->(m) ON CREATE SET rel.created = timestamp()
```
`MERGE` binds every match, or creates one instance when there is none. -/

def mergeNodeLabeled (lab nm u : String) (v : List ℚ) (now : ℕ) (g : Graph) :
    List ℕ × Graph :=
  let ms := matchLNU lab nm u g
  if ms.isEmpty then
    ([g.nextId],
     { g with nodes := g.nodes ++ [⟨g.nextId, [lab], nm, u, some v, some now⟩],
              nextId := g.nextId + 1 })
  else
    (ms.map GNode.nid,
     { g with nodes := g.nodes.map (nodeUpd lab nm u v) })

def edgeExists (s d : ℕ) (rel : String) (g : Graph) : Bool :=
  g.edges.any (fun r => r.src == s && r.dst == d && r.typ == rel)

def mergeEdge (s d : ℕ) (rel : String) (now : ℕ) (g : Graph) : Graph :=
  if edgeExists s d rel g then g
  else { g with edges := g.edges ++ [⟨g.nextId, s, d, rel, some now⟩], nextId := g.nextId + 1 }

def mergeEdges (ns ms : List ℕ) (rel : String) (now : ℕ) (g : Graph) : Graph :=
  ns.foldl (fun acc s => ms.foldl (fun acc2 d => mergeEdge s d rel now acc2) acc) g

/-- The full upsert Cypher of `add`, for already normalized text fields and
already computed embeddings. -/
def addMemoryQuery (source_type source dest_type dest rel : String)
    (se de : List ℚ) (u : String) (now : ℕ) (g : Graph) : Graph :=
  let p1 := mergeNodeLabeled source_type source u se now g
  let p2 := mergeNodeLabeled dest_type dest u de now p1.2
  mergeEdges p1.1 p2.1 rel now p2.2

/-! ## `delete_all` (lines 240-246) and `get_all` (lines 249-278) -/

/-- `MATCH (n {user_id: $user_id}) DETACH DELETE n`. -/
def deleteAll (u : String) (g : Graph) : Graph :=
  { g with nodes := g.nodes.filter (fun n => !(n.user_id == u)),
           edges := g.edges.filter (fun r =>
             !(g.nodes.any (fun n => n.user_id == u && (n.nid == r.src || n.nid == r.dst)))) }

structure GetAllRow where
  source : String
  relationship : String
  target : String
deriving DecidableEq, Repr

/-- `MATCH (n {user_id: $user_id})-[r]->(m {user_id: $user_id}) RETURN ...`,
followed by the Python projection into result dictionaries. -/
def getAll (u : String) (g : Graph) : List GetAllRow :=
  g.edges.filterMap (fun r =>
    match g.node? r.src, g.node? r.dst with
    | some n, some m =>
      if n.user_id == u && m.user_id == u then some ⟨n.name, r.typ, m.name⟩ else none
    | _, _ => none)

/-! ## `_update_relationship` (lines 281-320) -/

inductive PyErr
  | typeError
  | keyError (k : String)
  | exception (msg : String)
deriving DecidableEq, Repr

deriving instance DecidableEq for Except

/-- `MERGE (n1 {name: $source, user_id: $user_id})` of the check-and-create
query: label-free, and with no `ON CREATE SET`, so a created node carries no
`created` timestamp, no embedding, and no label. -/
def mergeNodePlain (nm u : String) (g : Graph) : Graph :=
  if (matchNU nm u g).isEmpty then
    { g with nodes := g.nodes ++ [⟨g.nextId, [], nm, u, none, none⟩], nextId := g.nextId + 1 }
  else g

/-- `MATCH (n1 {name: $source, ...})-[r]->(n2 {name: $target, ...}) DELETE r`:
deletes every direct edge from a source-named node to a target-named node,
regardless of its relationship type. -/
def deleteEdgesBetween (srcN dstN u : String) (g : Graph) : Graph :=
  { g with edges := g.edges.filter (fun r =>
      !((matchNU srcN u g).any (fun n1 => n1.nid == r.src) &&
        (matchNU dstN u g).any (fun n2 => n2.nid == r.dst))) }

/-- `MATCH (n1 {name: $source, ...}), (n2 {name: $target, ...})
CREATE (n1)-[r:REL]->(n2) RETURN n1, r, n2`: one new edge per matched row;
`CREATE` sets no `created` property here.  Returns the result rows. -/
def createEdgesBetween (srcN dstN rel u : String) (g : Graph) :
    List (GNode × GNode) × Graph :=
  let pairs := (matchNU srcN u g).flatMap (fun n1 => (matchNU dstN u g).map (fun n2 => (n1, n2)))
  (pairs,
   { g with
     edges := g.edges ++ pairs.enum.map (fun p => ⟨g.nextId + p.1, p.2.1.nid, p.2.2.nid, rel, none⟩),
     nextId := g.nextId + pairs.length })

/-- `_update_relationship(source, target, relationship, filters)`: normalizes
the relationship label only, merges both endpoints, deletes the direct edges
between them, creates the new edge, and raises when the creation query
returns no rows.  The returned state reflects every step already executed
(no rollback). -/
def updateRelationship (source target relationship u : String) (g : Graph) :
    Except PyErr Unit × Graph :=
  let rel := normalize relationship
  let g2 := mergeNodePlain target u (mergeNodePlain source u g)
  let g3 := deleteEdgesBetween source target u g2
  let res := createEdgesBetween source target rel u g3
  if res.1.isEmpty then
    (Except.error (PyErr.exception
      ("Failed to update or create relationship between " ++ source ++ " and " ++ target)),
     res.2)
  else (Except.ok (), res.2)

/-! ## The language-model interface

A response is a list of tool calls; arguments are Python dictionaries,
modelled as association lists whose lookup can fail (`KeyError`). -/

inductive ArgVal
  | s (v : String)
  | l (v : List String)
  | ents (v : List (String × String))
deriving DecidableEq, Repr

structure ToolCall where
  name : String
  arguments : List (String × ArgVal)
deriving DecidableEq, Repr

structure LlmResponse where
  tool_calls : List ToolCall
deriving DecidableEq, Repr

structure LlmRequest where
  messages : List (String × String)
  tools : List String
deriving DecidableEq, Repr

/-- External oracles: the language-model client and the embedding client. -/
structure Oracles where
  llm : LlmRequest → LlmResponse
  embed : String → List ℚ

/-- Configuration read by the module: the resolved llm provider name and the
optional custom extraction instruction. -/
structure MConfig where
  llm_provider : String
  custom_prompt : Option String

/-- Modelled from the spec: the tool schemas imported from `mem0.graphs.tools`
are not under `src/`; only their identities matter to this module, which
passes them opaquely to the language-model client. -/
def ADD_MESSAGE_TOOL : String := "ADD_MESSAGE_TOOL"

def ADD_MESSAGE_STRUCT_TOOL : String := "ADD_MESSAGE_STRUCT_TOOL"

def SEARCH_TOOL : String := "SEARCH_TOOL"

def SEARCH_STRUCT_TOOL : String := "SEARCH_STRUCT_TOOL"

def UPDATE_MEMORY_TOOL_GRAPH : String := "UPDATE_MEMORY_TOOL_GRAPH"

def UPDATE_MEMORY_STRUCT_TOOL_GRAPH : String := "UPDATE_MEMORY_STRUCT_TOOL_GRAPH"

def ADD_MEMORY_TOOL_GRAPH : String := "ADD_MEMORY_TOOL_GRAPH"

def ADD_MEMORY_STRUCT_TOOL_GRAPH : String := "ADD_MEMORY_STRUCT_TOOL_GRAPH"

def NOOP_TOOL : String := "NOOP_TOOL"

def NOOP_STRUCT_TOOL : String := "NOOP_STRUCT_TOOL"

/-- Modelled from the spec: `EXTRACT_ENTITIES_PROMPT` (from
`mem0.graphs.utils`, not under `src/`) is an extraction prompt containing the
`USER_ID` and `CUSTOM_PROMPT` placeholders; its exact text is oracle-opaque. -/
def EXTRACT_ENTITIES_PROMPT : String :=
  "Extract entities and relations from the text. Treat USER_ID as the source node for self references. CUSTOM_PROMPT"

/-- The provider test `self.llm_provider in ["azure_openai_structured",
"openai_structured"]` repeated at lines 68, 86 and 143. -/
def structuredProvider (p : String) : Bool :=
  p == "azure_openai_structured" || p == "openai_structured"

/-- Python dictionary lookup `d[k]` returning `none` for a missing key. -/
def lookupArg (args : List (String × ArgVal)) (k : String) : Option ArgVal :=
  (args.find? (fun p => p.1 == k)).map (fun p => p.2)

/-- `item["arguments"][k]` where the code consumes the value as a list of
strings.  A missing key raises `KeyError`; a value of a different shape is
modelled as a `TypeError` (the Python code would mangle it downstream). -/
def getListArg (args : List (String × ArgVal)) (k : String) : Except PyErr (List String) :=
  match lookupArg args k with
  | none => Except.error (PyErr.keyError k)
  | some (ArgVal.l v) => Except.ok v
  | some _ => Except.error PyErr.typeError

/-- `item["arguments"][k]` where the code consumes the value as a string. -/
def getStrArg (args : List (String × ArgVal)) (k : String) : Except PyErr String :=
  match lookupArg args k with
  | none => Except.error (PyErr.keyError k)
  | some (ArgVal.s v) => Except.ok v
  | some _ => Except.error PyErr.typeError

/-- Lines 153-162 of `_search`: walk the tool calls, collecting
`arguments["nodes"]` and `arguments["relations"]` of every call named
`search`; other names are skipped silently. -/
def collectSearchLists : List ToolCall → Except PyErr (List String × List String)
  | [] => Except.ok ([], [])
  | tc :: rest =>
    if tc.name == "search" then
      match getListArg tc.arguments "nodes" with
      | Except.error e => Except.error e
      | Except.ok ns =>
        match getListArg tc.arguments "relations" with
        | Except.error e => Except.error e
        | Except.ok rs =>
          match collectSearchLists rest with
          | Except.error e => Except.error e
          | Except.ok p => Except.ok (ns ++ p.1, rs ++ p.2)
    else collectSearchLists rest

/-- Events traced against the external collaborators, used to state in which
order the pipeline touches them. -/
inductive Event
  | llmCall (tools : List String)
  | embedCall (text : String)
  | graphRead
  | graphWrite
deriving DecidableEq, Repr

/-- The extraction prompt content of `_search` (line 147); the literal prompt
text is irrelevant to the store, only the `user_id` data flow is kept. -/
def searchSystemContent (u : String) : String :=
  "You are a smart assistant who understands entities, their types and relations in a given text. If the user message contains self references then use " ++ u ++ " as the source node. Extract the entities."

def searchRequest (provider u query : String) : LlmRequest :=
  ⟨[("system", searchSystemContent u), ("user", query)],
   if structuredProvider provider then [SEARCH_STRUCT_TOOL] else [SEARCH_TOOL]⟩

/-- `_search` (lines 141-200): one llm call, then per candidate node one
embedding call and one (read-only) retrieval query; the edge rows of every
candidate are concatenated.  `list(set(..))` has unspecified order in CPython
and is modelled as order-preserving deduplication; the normalized
`relation_list` (lines 159-165) is computed by the source but never used.  The
second component traces the external calls made. -/
def searchInternal (o : Oracles) (cfg : MConfig) (threshold : ℚ) (query u : String)
    (g : Graph) : Except PyErr (List SearchRow) × List Event :=
  let req := searchRequest cfg.llm_provider u query
  let resp := o.llm req
  match collectSearchLists resp.tool_calls with
  | Except.error e => (Except.error e, [Event.llmCall req.tools])
  | Except.ok p =>
    let node_list := p.1.dedup.map normalize
    (Except.ok (node_list.flatMap (fun nm => searchQueryExec (o.embed nm) threshold u g)),
     Event.llmCall req.tools :: node_list.flatMap (fun nm => [Event.embedCall nm, Event.graphRead]))

/-- `rank_bm25.BM25Okapi.get_top_n(query, documents, n)`: indices sorted by
ascending score, reversed, truncated to `n`, mapped through `documents`.  The
BM25 scores themselves come from the external scorer. -/
def getTopN {α : Type} (scores : List ℚ) (docs : List α) (n : ℕ) : List α :=
  (((sortBy (fun i j => decide (scores.getD i 0 ≤ scores.getD j 0))
      (List.range docs.length)).reverse.take n).filterMap (fun i => docs.get? i))

structure SearchResult where
  source : String
  relation : String
  destination : String
deriving DecidableEq, Repr

/-- `search` (lines 203-237): retrieval, early `[]` on an empty edge list, BM25
re-ranking of the `[source, relation, destination]` token triples against the
whitespace-split query, at most 5 results. -/
def searchOp (o : Oracles) (scorer : List (List String) → List String → List ℚ)
    (cfg : MConfig) (threshold : ℚ) (query u : String) (g : Graph) :
    Except PyErr (List SearchResult) :=
  match (searchInternal o cfg threshold query u g).1 with
  | Except.error e => Except.error e
  | Except.ok search_output =>
    if search_output.isEmpty then Except.ok []
    else
      let seqs := search_output.map (fun item => [item.source, item.relation, item.destination])
      let reranked := getTopN (scorer seqs (query.splitOn " ")) seqs 5
      Except.ok (reranked.map (fun item => ⟨item.getD 0 "", item.getD 1 "", item.getD 2 ""⟩))

/-- Lines 76-79 of `add`: a response with no tool calls yields the empty
entity list; otherwise `tool_calls[0]["arguments"]["entities"]` is read (a
missing key raises `KeyError`). -/
def parseExtractedEntities (resp : LlmResponse) : Except PyErr ArgVal :=
  match resp.tool_calls with
  | [] => Except.ok (ArgVal.ents [])
  | tc :: _ =>
    match lookupArg tc.arguments "entities" with
    | none => Except.error (PyErr.keyError "entities")
    | some v => Except.ok v

/-- Modelled from the spec: `get_update_memory_messages` (from
`mem0.graphs.utils`, not under `src/`) formats retrieved rows and extracted
entities into the reconciliation prompt; the resulting text is oracle-opaque
and nothing downstream of the llm call depends on it. -/
def getUpdateMemoryMessages (rows : List SearchRow) (ents : ArgVal) : List (String × String) :=
  [("user", "update graph memory prompt")]

/-- The reconciliation loop of `add` (lines 94-102): `add_graph_memory` calls
are queued (their raw argument dictionaries), `update_graph_memory` calls run
`_update_relationship` immediately, `noop` and unrecognized names are skipped.
An exception aborts the loop, keeping the mutations already applied. -/
def reconcileLoop (u : String) : List ToolCall → Graph →
    Except PyErr (List (List (String × ArgVal))) × Graph × List Event
  | [], g => (Except.ok [], g, [])
  | tc :: rest, g =>
    if tc.name == "add_graph_memory" then
      let r := reconcileLoop u rest g
      (r.1.map (fun l => tc.arguments :: l), r.2.1, r.2.2)
    else if tc.name == "update_graph_memory" then
      match getStrArg tc.arguments "source" with
      | Except.error e => (Except.error e, g, [])
      | Except.ok s =>
        match getStrArg tc.arguments "destination" with
        | Except.error e => (Except.error e, g, [])
        | Except.ok d =>
          match getStrArg tc.arguments "relationship" with
          | Except.error e => (Except.error e, g, [])
          | Except.ok rel =>
            let ur := updateRelationship s d rel u g
            match ur.1 with
            | Except.error e =>
              (Except.error e, ur.2, [Event.graphWrite, Event.graphWrite, Event.graphWrite])
            | Except.ok _ =>
              let r := reconcileLoop u rest ur.2
              (r.1, r.2.1, [Event.graphWrite, Event.graphWrite, Event.graphWrite] ++ r.2.2)
    else reconcileLoop u rest g

/-- One queued addition (lines 104-136): read the five argument fields,
normalize them, embed the source and destination names, run the upsert
query. -/
def addFromItem (o : Oracles) (u : String) (now : ℕ) (args : List (String × ArgVal))
    (g : Graph) : Except PyErr Unit × Graph × List Event :=
  match getStrArg args "source" with
  | Except.error e => (Except.error e, g, [])
  | Except.ok source0 =>
  match getStrArg args "source_type" with
  | Except.error e => (Except.error e, g, [])
  | Except.ok source_type0 =>
  match getStrArg args "relationship" with
  | Except.error e => (Except.error e, g, [])
  | Except.ok relationship0 =>
  match getStrArg args "destination" with
  | Except.error e => (Except.error e, g, [])
  | Except.ok destination0 =>
  match getStrArg args "destination_type" with
  | Except.error e => (Except.error e, g, [])
  | Except.ok destination_type0 =>
    let source := normalize source0
    let source_type := normalize source_type0
    let relation := normalize relationship0
    let destination := normalize destination0
    let destination_type := normalize destination_type0
    (Except.ok (),
     addMemoryQuery source_type source destination_type destination relation
       (o.embed source) (o.embed destination) u now g,
     [Event.embedCall source, Event.embedCall destination, Event.graphWrite])

def addQueuedLoop (o : Oracles) (u : String) (now : ℕ) :
    List (List (String × ArgVal)) → Graph → Except PyErr Unit × Graph × List Event
  | [], g => (Except.ok (), g, [])
  | item :: rest, g =>
    let r := addFromItem o u now item g
    match r.1 with
    | Except.error e => (Except.error e, r.2.1, r.2.2)
    | Except.ok _ =>
      let r2 := addQueuedLoop o u now rest r.2.1
      (r2.1, r2.2.1, r.2.2 ++ r2.2.2)

/-- `add(data, filters)` (lines 41-138): retrieval first, then the extraction
prompt is built — `EXTRACT_ENTITIES_PROMPT.replace("USER_ID", self.user_id)`
raises `TypeError` whenever `self.user_id` is `None` — then extraction,
reconciliation, and the queued upserts.  Returns the outcome, the store state,
and the trace of external calls. -/
def pyReplace (s old : String) (repl : Option String) : Except PyErr String :=
  match repl with
  | none => Except.error PyErr.typeError
  | some r => Except.ok (s.replace old r)

def addOp (o : Oracles) (cfg : MConfig) (self_user_id : Option String) (threshold : ℚ)
    (data u : String) (now : ℕ) (g : Graph) : Except PyErr Unit × Graph × List Event :=
  let sres := searchInternal o cfg threshold data u g
  match sres.1 with
  | Except.error e => (Except.error e, g, sres.2)
  | Except.ok search_output =>
    match pyReplace EXTRACT_ENTITIES_PROMPT "USER_ID" self_user_id with
    | Except.error e => (Except.error e, g, sres.2)
    | Except.ok base =>
      let sysPrompt := match cfg.custom_prompt with
        | some cp => base.replace "CUSTOM_PROMPT" ("4. " ++ cp)
        | none => base
      let exReq : LlmRequest := ⟨[("system", sysPrompt), ("user", data)],
        if structuredProvider cfg.llm_provider then [ADD_MESSAGE_STRUCT_TOOL]
        else [ADD_MESSAGE_TOOL]⟩
      let exResp := o.llm exReq
      match parseExtractedEntities exResp with
      | Except.error e => (Except.error e, g, sres.2 ++ [Event.llmCall exReq.tools])
      | Except.ok ents =>
        let upReq : LlmRequest := ⟨getUpdateMemoryMessages search_output ents,
          if structuredProvider cfg.llm_provider then
            [UPDATE_MEMORY_STRUCT_TOOL_GRAPH, ADD_MEMORY_STRUCT_TOOL_GRAPH, NOOP_STRUCT_TOOL]
          else [UPDATE_MEMORY_TOOL_GRAPH, ADD_MEMORY_TOOL_GRAPH, NOOP_TOOL]⟩
        let upResp := o.llm upReq
        let rec1 := reconcileLoop u upResp.tool_calls g
        let ev := sres.2 ++ [Event.llmCall exReq.tools, Event.llmCall upReq.tools] ++ rec1.2.2
        match rec1.1 with
        | Except.error e => (Except.error e, rec1.2.1, ev)
        | Except.ok queued =>
          let r2 := addQueuedLoop o u now queued rec1.2.1
          (r2.1, r2.2.1, ev ++ r2.2.2)

/-! ## The object state

`__init__` (lines 24-39) sets `self.user_id = None` and `self.threshold =
0.7`; no method of the module ever assigns either field again, so the state
threading below only ever copies them. -/

structure MState where
  user_id : Option String
  threshold : ℚ
  graph : Graph

def initState (g : Graph) : MState := ⟨none, 7 / 10, g⟩

inductive Op where
  | addData (o : Oracles) (cfg : MConfig) (data u : String) (now : ℕ)
  | searchFor (o : Oracles) (scorer : List (List String) → List String → List ℚ)
      (cfg : MConfig) (query u : String)
  | getAllFor (u : String)
  | deleteAllFor (u : String)

def applyOp (s : MState) : Op → MState
  | Op.addData o cfg data u now =>
    { s with graph := (addOp o cfg s.user_id s.threshold data u now s.graph).2.1 }
  | Op.searchFor _ _ _ _ _ => s
  | Op.getAllFor _ => s
  | Op.deleteAllFor u => { s with graph := deleteAll u s.graph }

def runOps (g : Graph) (ops : List Op) : MState := ops.foldl applyOp (initState g)

/-! ## Concrete fixtures used by witnesses and counterexamples -/

/-- An oracle whose language model extracts the single candidate node
`alice` and whose embedder returns `[1]` for every text. -/
def oW1 : Oracles :=
  ⟨fun _ => ⟨[⟨"search", [("nodes", ArgVal.l ["alice"]), ("relations", ArgVal.l [])]⟩]⟩,
   fun _ => [1]⟩

/-- An oracle whose language model never issues a tool call. -/
def oQuiet : Oracles := ⟨fun _ => ⟨[]⟩, fun _ => []⟩

/-- A store with `alice` owned by user `A` (embedding `[1]`) linked to `bob`
owned by user `B`: a cross-tenant edge. -/
def gW1 : Graph :=
  ⟨[⟨0, ["person"], "alice", "A", some [1], some 0⟩, ⟨1, ["org"], "bob", "B", none, none⟩],
   [⟨2, 0, 1, "knows", some 0⟩], 3⟩

/-- A uniform scorer for the BM25 oracle. -/
def flatScorer : List (List String) → List String → List ℚ :=
  fun corpus _ => corpus.map (fun _ => 1)

/-! ## Helper lemmas -/

theorem applyOp_user_id (s : MState) (op : Op) : (applyOp s op).user_id = s.user_id := by
  cases op <;> rfl

theorem foldl_applyOp_user_id (s : MState) (ops : List Op) :
    (ops.foldl applyOp s).user_id = s.user_id := by
  induction ops generalizing s with
  | nil => rfl
  | cons op rest ih => rw [List.foldl_cons, ih, applyOp_user_id]

theorem runOps_user_id (g : Graph) (ops : List Op) : (runOps g ops).user_id = none := by
  rw [runOps, foldl_applyOp_user_id]
  rfl

/-- With `self.user_id = None`, `add` stops at the extraction-prompt build
with a `TypeError`, leaving the store untouched. -/
theorem addOp_none (o : Oracles) (cfg : MConfig) (threshold : ℚ) (data u : String)
    (now : ℕ) (g : Graph) (rows : List SearchRow)
    (hsearch : (searchInternal o cfg threshold data u g).1 = Except.ok rows) :
    addOp o cfg none threshold data u now g =
      (Except.error PyErr.typeError, g, (searchInternal o cfg threshold data u g).2) := by
  simp only [addOp, hsearch, pyReplace]

theorem searchInternal_trace_shape (o : Oracles) (cfg : MConfig) (threshold : ℚ)
    (query u : String) (g : Graph) :
    ∀ ev ∈ (searchInternal o cfg threshold query u g).2,
      ev = Event.llmCall (searchRequest cfg.llm_provider u query).tools ∨
      (∃ t, ev = Event.embedCall t) ∨ ev = Event.graphRead := by
  intro ev hev
  simp only [searchInternal] at hev
  cases h : collectSearchLists (o.llm (searchRequest cfg.llm_provider u query)).tool_calls with
  | error err =>
    rw [h] at hev
    simp only [List.mem_singleton] at hev
    exact Or.inl hev
  | ok p =>
    rw [h] at hev
    simp only [List.mem_cons] at hev
    rcases hev with hev | hev
    · exact Or.inl hev
    · rcases List.mem_flatMap.mp hev with ⟨nm, _, hmem⟩
      simp only [List.mem_cons, List.not_mem_nil, or_false] at hmem
      rcases hmem with rfl | rfl
      · exact Or.inr (Or.inl ⟨nm, rfl⟩)
      · exact Or.inr (Or.inr rfl)

theorem searchRequest_tools_ne (cfg : MConfig) (u query : String) :
    (searchRequest cfg.llm_provider u query).tools ≠ [ADD_MESSAGE_TOOL] ∧
    (searchRequest cfg.llm_provider u query).tools ≠ [ADD_MESSAGE_STRUCT_TOOL] := by
  simp only [searchRequest]
  by_cases h : structuredProvider cfg.llm_provider
  · simp only [h, if_pos]
    constructor <;> decide
  · simp only [h, if_neg, Bool.false_eq_true, not_false_eq_true]
    constructor <;> decide

/-! ## C1 -/

/-- C1: the constructor sets `self.user_id` to `None` and no operation ever
reassigns it, so on any reachable state `add(data, filters)` — after its
retrieval step succeeds — raises `TypeError` from
`EXTRACT_ENTITIES_PROMPT.replace("USER_ID", None)`: the result is the
`TypeError`, the store is unchanged (no extraction, reconciliation or graph
mutation), and the trace of external calls is exactly the retrieval trace,
which contains no graph write and no extraction llm call. -/
theorem claim_C1 (g0 : Graph) (ops : List Op) (o : Oracles) (cfg : MConfig)
    (data u : String) (now : ℕ) (g : Graph) (rows : List SearchRow)
    (hsearch : (searchInternal o cfg (7 / 10) data u g).1 = Except.ok rows) :
    (runOps g0 ops).user_id = none ∧
    addOp o cfg (runOps g0 ops).user_id (7 / 10) data u now g =
      (Except.error PyErr.typeError, g, (searchInternal o cfg (7 / 10) data u g).2) ∧
    Event.graphWrite ∉ (searchInternal o cfg (7 / 10) data u g).2 ∧
    Event.llmCall [ADD_MESSAGE_TOOL] ∉ (searchInternal o cfg (7 / 10) data u g).2 ∧
    Event.llmCall [ADD_MESSAGE_STRUCT_TOOL] ∉ (searchInternal o cfg (7 / 10) data u g).2 := by
  refine ⟨runOps_user_id g0 ops, ?_, ?_, ?_, ?_⟩
  · rw [runOps_user_id]
    exact addOp_none o cfg (7 / 10) data u now g rows hsearch
  · intro hmem
    rcases searchInternal_trace_shape o cfg (7 / 10) data u g _ hmem with h | ⟨t, h⟩ | h <;>
      simp at h
  · intro hmem
    rcases searchInternal_trace_shape o cfg (7 / 10) data u g _ hmem with h | ⟨t, h⟩ | h
    · have := (searchRequest_tools_ne cfg u data).1
      simp only [Event.llmCall.injEq] at h
      exact this h.symm
    · simp at h
    · simp at h
  · intro hmem
    rcases searchInternal_trace_shape o cfg (7 / 10) data u g _ hmem with h | ⟨t, h⟩ | h
    · have := (searchRequest_tools_ne cfg u data).2
      simp only [Event.llmCall.injEq] at h
      exact this h.symm
    · simp at h
    · simp at h

/-- C1 witness at a concrete state and oracle. -/
theorem claim_C1_witness :
    (searchInternal oQuiet ⟨"openai", none⟩ (7 / 10) "d" "A" emptyGraph).1 = Except.ok [] ∧
    ((runOps emptyGraph []).user_id = none ∧
     addOp oQuiet ⟨"openai", none⟩ (runOps emptyGraph []).user_id
         (7 / 10) "d" "A" 0 emptyGraph =
       (Except.error PyErr.typeError, emptyGraph,
        (searchInternal oQuiet ⟨"openai", none⟩ (7 / 10) "d" "A" emptyGraph).2) ∧
     Event.graphWrite ∉ (searchInternal oQuiet ⟨"openai", none⟩ (7 / 10) "d" "A"
        emptyGraph).2 ∧
     Event.llmCall [ADD_MESSAGE_TOOL] ∉ (searchInternal oQuiet ⟨"openai", none⟩
        (7 / 10) "d" "A" emptyGraph).2 ∧
     Event.llmCall [ADD_MESSAGE_STRUCT_TOOL] ∉ (searchInternal oQuiet
        ⟨"openai", none⟩ (7 / 10) "d" "A" emptyGraph).2) := by
  refine ⟨?_, ?_⟩
  · decide
  · exact claim_C1 emptyGraph [] oQuiet ⟨"openai", none⟩ "d" "A" 0 emptyGraph [] (by decide)

/-! ## C6 -/

theorem createEdgesBetween_empty (srcN dstN rel u : String) (g : Graph)
    (h : (createEdgesBetween srcN dstN rel u g).1 = []) :
    (createEdgesBetween srcN dstN rel u g).2 = g := by
  simp only [createEdgesBetween] at h ⊢
  rw [h]
  cases g
  simp

/-- C6: `_update_relationship` raises exactly when the final edge-creation
query returns no rows; the raise is the module's sole explicit exception, and
when it fires, the endpoint-merge and edge-delete steps remain applied with
no rollback. -/
theorem claim_C6 (source target relationship u : String) (g : Graph) :
    ((∃ err, (updateRelationship source target relationship u g).1 = Except.error err) ↔
      (createEdgesBetween source target (normalize relationship) u
        (deleteEdgesBetween source target u
          (mergeNodePlain target u (mergeNodePlain source u g)))).1 = []) ∧
    (∀ err, (updateRelationship source target relationship u g).1 = Except.error err →
      (updateRelationship source target relationship u g).2 =
        deleteEdgesBetween source target u
          (mergeNodePlain target u (mergeNodePlain source u g)) ∧
      ∃ msg, err = PyErr.exception msg) := by
  simp only [updateRelationship]
  by_cases hp : (createEdgesBetween source target (normalize relationship) u
      (deleteEdgesBetween source target u
        (mergeNodePlain target u (mergeNodePlain source u g)))).1.isEmpty
  · simp only [hp, if_pos]
    constructor
    · simp only [List.isEmpty_iff] at hp
      simp [hp]
    · intro err herr
      refine ⟨createEdgesBetween_empty _ _ _ _ _ (List.isEmpty_iff.mp hp), ?_⟩
      exact ⟨_, (Except.error.injEq _ _ ▸ herr).symm⟩
  · simp only [hp, if_neg, Bool.false_eq_true, not_false_eq_true]
    constructor
    · constructor
      · rintro ⟨err, herr⟩
        simp at herr
      · intro hpairs
        rw [List.isEmpty_iff] at hp
        exact absurd hpairs hp
    · intro err herr
      simp at herr

/-- C6 witness at a concrete input. -/
theorem claim_C6_witness :
    ((∃ err, (updateRelationship "a" "b" "r" "u" emptyGraph).1 = Except.error err) ↔
      (createEdgesBetween "a" "b" (normalize "r") "u"
        (deleteEdgesBetween "a" "b" "u"
          (mergeNodePlain "b" "u" (mergeNodePlain "a" "u" emptyGraph)))).1 = []) ∧
    (∀ err, (updateRelationship "a" "b" "r" "u" emptyGraph).1 = Except.error err →
      (updateRelationship "a" "b" "r" "u" emptyGraph).2 =
        deleteEdgesBetween "a" "b" "u"
          (mergeNodePlain "b" "u" (mergeNodePlain "a" "u" emptyGraph)) ∧
      ∃ msg, err = PyErr.exception msg) :=
  claim_C6 "a" "b" "r" "u" emptyGraph

/-! ## C4 -/

theorem getTopN_length_le {α : Type} (scores : List ℚ) (docs : List α) (n : ℕ) :
    (getTopN scores docs n).length ≤ n := by
  unfold getTopN
  refine le_trans (List.length_filterMap_le _ _) ?_
  refine le_trans (List.length_take_le _ _) le_rfl

/-- C4: `search` returns at most 5 records, and when retrieval yields no
edge rows it returns `[]` immediately, independently of (and without
consulting) the lexical re-ranker. -/
theorem claim_C4 (o : Oracles)
    (scorer scorer2 : List (List String) → List String → List ℚ)
    (cfg : MConfig) (threshold : ℚ) (query u : String) (g : Graph)
    (l : List SearchResult) :
    (searchOp o scorer cfg threshold query u g = Except.ok l → l.length ≤ 5) ∧
    ((searchInternal o cfg threshold query u g).1 = Except.ok [] →
      searchOp o scorer cfg threshold query u g = Except.ok [] ∧
      searchOp o scorer cfg threshold query u g =
        searchOp o scorer2 cfg threshold query u g) := by
  constructor
  · intro hok
    simp only [searchOp] at hok
    cases hs : (searchInternal o cfg threshold query u g).1 with
    | error e => rw [hs] at hok; simp at hok
    | ok rows =>
      rw [hs] at hok
      by_cases hrows : rows.isEmpty
      · simp only [hrows, if_pos] at hok
        cases hok
        simp
      · simp only [hrows, Bool.false_eq_true, if_neg, not_false_eq_true,
          Except.ok.injEq] at hok
        subst hok
        rw [List.length_map]
        exact getTopN_length_le _ _ _
  · intro hempty
    constructor <;> simp [searchOp, hempty]

/-- C4 witness: a concrete run returning one row, and a concrete empty
retrieval. -/
theorem claim_C4_witness :
    (searchOp oW1 flatScorer ⟨"openai", none⟩ (7 / 10)
        "q" "A" gW1 = Except.ok [⟨"alice", "knows", "bob"⟩] ∧
      ([(⟨"alice", "knows", "bob"⟩ : SearchResult)]).length ≤ 5) ∧
    ((searchInternal oQuiet ⟨"openai", none⟩ (7 / 10) "q" "A"
        gW1).1 = Except.ok [] ∧
      searchOp oQuiet flatScorer ⟨"openai", none⟩ (7 / 10) "q" "A" gW1 = Except.ok []) := by
  refine ⟨⟨?_, ?_⟩, ⟨?_, ?_⟩⟩
  · decide
  · exact (claim_C4 oW1 flatScorer flatScorer ⟨"openai", none⟩ (7 / 10) "q" "A" gW1
      [⟨"alice", "knows", "bob"⟩]).1 (by decide)
  · decide
  · exact ((claim_C4 oQuiet flatScorer flatScorer
      ⟨"openai", none⟩ (7 / 10) "q" "A" gW1 []).2 (by decide)).1

/-! ## C9 -/

/-- C9 counterexample: malformed tool calls raise rather than yielding empty
lists — a `search` call missing its `nodes` argument makes the retrieval
parse raise `KeyError`, which `search` propagates to the caller; a first tool
call missing its `entities` argument makes the extraction parse raise
`KeyError`; and the extraction parse performs no name check, so a call with
an unrecognized name still yields its `entities` payload, not an empty
list. -/
theorem claim_C9_counterexample :
    collectSearchLists [⟨"search", []⟩] = Except.error (PyErr.keyError "nodes") ∧
    searchOp ⟨fun _ => ⟨[⟨"search", []⟩]⟩, fun _ => []⟩ flatScorer ⟨"openai", none⟩
      (7 / 10) "q" "A" emptyGraph = Except.error (PyErr.keyError "nodes") ∧
    parseExtractedEntities ⟨[⟨"search", []⟩]⟩ =
      Except.error (PyErr.keyError "entities") ∧
    parseExtractedEntities ⟨[⟨"bogus", [("entities", ArgVal.ents [("alice", "bob")])]⟩]⟩ =
      Except.ok (ArgVal.ents [("alice", "bob")]) := by
  refine ⟨by decide, by decide, by decide, by decide⟩

/-- C9 (amended): a response with no tool calls yields an empty list
silently — the extraction step proceeds with an empty entity list, `_search`
collects no candidates, and the caller of `search` receives `Except.ok []`
rather than an error — and the retrieval step silently skips tool calls not
named `search`.  The extraction step, however, performs no name check: it
reads the first tool call's `entities` argument whatever the call's name is,
raising `KeyError` when the key is absent (and a `search`-named retrieval
call with schema-violating arguments raises too; see the counterexample). -/
theorem claim_C9 (o : Oracles) (scorer : List (List String) → List String → List ℚ)
    (cfg : MConfig) (threshold : ℚ) (q u : String) (g : Graph)
    (hnames : ∀ tc ∈ (o.llm (searchRequest cfg.llm_provider u q)).tool_calls,
      tc.name ≠ "search") :
    parseExtractedEntities ⟨[]⟩ = Except.ok (ArgVal.ents []) ∧
    (∀ tcs : List ToolCall, (∀ tc ∈ tcs, tc.name ≠ "search") →
      collectSearchLists tcs = Except.ok ([], [])) ∧
    (searchInternal o cfg threshold q u g).1 = Except.ok [] ∧
    searchOp o scorer cfg threshold q u g = Except.ok [] ∧
    (∀ (nm nm2 : String) (args : List (String × ArgVal)) (rest : List ToolCall),
      parseExtractedEntities ⟨⟨nm, args⟩ :: rest⟩ =
        parseExtractedEntities ⟨⟨nm2, args⟩ :: rest⟩) ∧
    (∀ (tc : ToolCall) (rest : List ToolCall) (v : ArgVal),
      lookupArg tc.arguments "entities" = some v →
        parseExtractedEntities ⟨tc :: rest⟩ = Except.ok v) ∧
    (∀ (tc : ToolCall) (rest : List ToolCall),
      lookupArg tc.arguments "entities" = none →
        parseExtractedEntities ⟨tc :: rest⟩ = Except.error (PyErr.keyError "entities")) := by
  have hcoll : ∀ tcs : List ToolCall, (∀ tc ∈ tcs, tc.name ≠ "search") →
      collectSearchLists tcs = Except.ok ([], []) := by
    intro tcs
    induction tcs with
    | nil => intro _; rfl
    | cons tc rest ih =>
      intro hall
      have hname : ¬ (tc.name == "search") = true := by
        simpa using hall tc (List.mem_cons_self tc rest)
      simp only [collectSearchLists, if_neg hname]
      exact ih (fun tc2 h2 => hall tc2 (List.mem_cons_of_mem tc h2))
  have hsi : (searchInternal o cfg threshold q u g).1 = Except.ok [] := by
    simp only [searchInternal,
      hcoll (o.llm (searchRequest cfg.llm_provider u q)).tool_calls hnames]
    simp [List.dedup]
  refine ⟨rfl, hcoll, hsi, ?_, ?_, ?_, ?_⟩
  · simp [searchOp, hsi]
  · intro nm nm2 args rest
    rfl
  · intro tc rest v h
    simp only [parseExtractedEntities, h]
  · intro tc rest h
    simp only [parseExtractedEntities, h]

/-- C9 witness at a concrete oracle whose tool call bears another name. -/
theorem claim_C9_witness :
    (∀ tc ∈ ((⟨fun _ => ⟨[⟨"noop", []⟩]⟩, fun _ => []⟩ : Oracles).llm
        (searchRequest "openai" "A" "q")).tool_calls, tc.name ≠ "search") ∧
    (parseExtractedEntities ⟨[]⟩ = Except.ok (ArgVal.ents []) ∧
     (∀ tcs : List ToolCall, (∀ tc ∈ tcs, tc.name ≠ "search") →
       collectSearchLists tcs = Except.ok ([], [])) ∧
     (searchInternal ⟨fun _ => ⟨[⟨"noop", []⟩]⟩, fun _ => []⟩ ⟨"openai", none⟩ (7 / 10)
        "q" "A" emptyGraph).1 = Except.ok [] ∧
     searchOp ⟨fun _ => ⟨[⟨"noop", []⟩]⟩, fun _ => []⟩ flatScorer ⟨"openai", none⟩
       (7 / 10) "q" "A" emptyGraph = Except.ok [] ∧
     (∀ (nm nm2 : String) (args : List (String × ArgVal)) (rest : List ToolCall),
       parseExtractedEntities ⟨⟨nm, args⟩ :: rest⟩ =
         parseExtractedEntities ⟨⟨nm2, args⟩ :: rest⟩) ∧
     (∀ (tc : ToolCall) (rest : List ToolCall) (v : ArgVal),
       lookupArg tc.arguments "entities" = some v →
         parseExtractedEntities ⟨tc :: rest⟩ = Except.ok v) ∧
     (∀ (tc : ToolCall) (rest : List ToolCall),
       lookupArg tc.arguments "entities" = none →
         parseExtractedEntities ⟨tc :: rest⟩ =
           Except.error (PyErr.keyError "entities"))) := by
  refine ⟨?_, ?_⟩
  · decide
  · exact claim_C9 ⟨fun _ => ⟨[⟨"noop", []⟩]⟩, fun _ => []⟩ flatScorer ⟨"openai", none⟩
      (7 / 10) "q" "A" emptyGraph (by decide)

/-! ## C3 -/

/-- A string is in normal form: lowercasing and replacing spaces leaves it
unchanged. -/
def Normalized (s : String) : Prop := normalize s = s

theorem mergeNodePlain_edges (nm u : String) (g : Graph) :
    (mergeNodePlain nm u g).edges = g.edges := by
  unfold mergeNodePlain
  split <;> rfl

theorem deleteEdgesBetween_nodes (a b u : String) (g : Graph) :
    (deleteEdgesBetween a b u g).nodes = g.nodes := rfl

theorem createEdgesBetween_nodes (a b rel u : String) (g : Graph) :
    (createEdgesBetween a b rel u g).2.nodes = g.nodes := rfl

theorem updateRelationship_graph (s t rel u : String) (g : Graph) :
    (updateRelationship s t rel u g).2 =
      (createEdgesBetween s t (normalize rel) u
        (deleteEdgesBetween s t u (mergeNodePlain t u (mergeNodePlain s u g)))).2 := by
  simp only [updateRelationship]
  split <;> rfl

theorem mergeNodePlain_mem_nodes (nm u : String) (g : Graph) :
    ∀ n ∈ (mergeNodePlain nm u g).nodes,
      n ∈ g.nodes ∨ (n = ⟨g.nextId, [], nm, u, none, none⟩) := by
  unfold mergeNodePlain
  split
  · intro n hn
    rcases List.mem_append.mp hn with h | h
    · exact Or.inl h
    · simp only [List.mem_singleton] at h
      exact Or.inr h
  · intro n hn
    exact Or.inl hn

theorem createEdgesBetween_mem_edges (a b rel u : String) (g : Graph) :
    ∀ e ∈ (createEdgesBetween a b rel u g).2.edges,
      e ∈ g.edges ∨
      (e.typ = rel ∧ (∃ n1 ∈ matchNU a u g, n1.nid = e.src) ∧
        (∃ n2 ∈ matchNU b u g, n2.nid = e.dst)) := by
  intro e he
  simp only [createEdgesBetween] at he
  rcases List.mem_append.mp he with h | h
  · exact Or.inl h
  · rcases List.mem_map.mp h with ⟨p, hp, rfl⟩
    have hmem : p.2 ∈ (matchNU a u g).flatMap
        (fun n1 => (matchNU b u g).map (fun n2 => (n1, n2))) := by
      have := List.mem_map_of_mem Prod.snd hp
      rwa [List.enum_map_snd] at this
    rcases List.mem_flatMap.mp hmem with ⟨n1, hn1, hmap⟩
    rcases List.mem_map.mp hmap with ⟨n2, hn2, heq⟩
    refine Or.inr ⟨rfl, ⟨n1, hn1, ?_⟩, ⟨n2, hn2, ?_⟩⟩
    · rw [← heq]
    · rw [← heq]

theorem mem_matchNU (nm u : String) (g : Graph) (n : GNode) :
    n ∈ matchNU nm u g ↔ n ∈ g.nodes ∧ n.name = nm ∧ n.user_id = u := by
  unfold matchNU
  rw [List.mem_filter]
  simp [Bool.and_eq_true]

/-- Every edge in the result of `_update_relationship` is either an original
edge or a newly created one carrying the normalized relationship label. -/
theorem updateRelationship_edge_prov (s t rel u : String) (g : Graph) :
    ∀ e ∈ (updateRelationship s t rel u g).2.edges,
      e ∈ g.edges ∨ e.typ = normalize rel := by
  intro e he
  rw [updateRelationship_graph] at he
  rcases createEdgesBetween_mem_edges _ _ _ _ _ e he with h | ⟨htyp, _, _⟩
  · simp only [deleteEdgesBetween] at h
    rcases List.mem_filter.mp h with ⟨h2, _⟩
    rw [mergeNodePlain_edges, mergeNodePlain_edges] at h2
    exact Or.inl h2
  · exact Or.inr htyp

theorem mergeEdge_mem_edges (sN dN : ℕ) (rel : String) (now : ℕ) (g : Graph) :
    ∀ e ∈ (mergeEdge sN dN rel now g).edges, e ∈ g.edges ∨ e.typ = rel := by
  unfold mergeEdge
  split
  · intro e he
    exact Or.inl he
  · intro e he
    rcases List.mem_append.mp he with h | h
    · exact Or.inl h
    · simp only [List.mem_singleton] at h
      subst h
      exact Or.inr rfl

theorem mergeEdgeFoldInner_mem (sN : ℕ) (rel : String) (now : ℕ) :
    ∀ (ms : List ℕ) (g : Graph),
      ∀ e ∈ (ms.foldl (fun acc2 d => mergeEdge sN d rel now acc2) g).edges,
        e ∈ g.edges ∨ e.typ = rel := by
  intro ms
  induction ms with
  | nil => intro g e he; exact Or.inl he
  | cons d rest ih =>
    intro g e he
    rw [List.foldl_cons] at he
    rcases ih (mergeEdge sN d rel now g) e he with h | h
    · exact mergeEdge_mem_edges sN d rel now g e h
    · exact Or.inr h

theorem mergeEdges_mem (ns ms : List ℕ) (rel : String) (now : ℕ) :
    ∀ (g : Graph), ∀ e ∈ (mergeEdges ns ms rel now g).edges,
      e ∈ g.edges ∨ e.typ = rel := by
  induction ns with
  | nil => intro g e he; exact Or.inl he
  | cons sN rest ih =>
    intro g e he
    unfold mergeEdges at he ih
    rw [List.foldl_cons] at he
    rcases ih _ e he with h | h
    · exact mergeEdgeFoldInner_mem sN rel now ms g e h
    · exact Or.inr h

theorem mergeNodeLabeled_edges (lab nm u : String) (v : List ℚ) (now : ℕ) (g : Graph) :
    (mergeNodeLabeled lab nm u v now g).2.edges = g.edges := by
  simp only [mergeNodeLabeled]
  by_cases hm : (matchLNU lab nm u g).isEmpty
  · rw [if_pos hm]
  · rw [if_neg hm]

theorem mergeNodeLabeled_mem_nodes (lab nm u : String) (v : List ℚ) (now : ℕ) (g : Graph) :
    ∀ n ∈ (mergeNodeLabeled lab nm u v now g).2.nodes,
      (∃ n0 ∈ g.nodes, n.name = n0.name ∧ n.labels = n0.labels) ∨
      (n.name = nm ∧ n.labels = [lab]) := by
  intro n hn
  simp only [mergeNodeLabeled] at hn
  by_cases hm : (matchLNU lab nm u g).isEmpty
  · rw [if_pos hm] at hn
    rcases List.mem_append.mp hn with h | h
    · exact Or.inl ⟨n, h, rfl, rfl⟩
    · simp only [List.mem_singleton] at h
      subst h
      exact Or.inr ⟨rfl, rfl⟩
  · rw [if_neg hm] at hn
    rcases List.mem_map.mp hn with ⟨n0, hn0, heq⟩
    subst heq
    left
    refine ⟨n0, hn0, ?_⟩
    unfold nodeUpd
    by_cases hc : predB lab nm u n0 = true
    · rw [if_pos hc]
      exact ⟨rfl, rfl⟩
    · rw [if_neg hc]
      exact ⟨rfl, rfl⟩

theorem mergeEdges_nodes (ns ms : List ℕ) (rel : String) (now : ℕ) :
    ∀ g : Graph, (mergeEdges ns ms rel now g).nodes = g.nodes := by
  have hone : ∀ (sN d : ℕ) (g : Graph), (mergeEdge sN d rel now g).nodes = g.nodes := by
    intro sN d g
    unfold mergeEdge
    split <;> rfl
  have hinner : ∀ (sN : ℕ) (ms2 : List ℕ) (g : Graph),
      (ms2.foldl (fun acc2 d => mergeEdge sN d rel now acc2) g).nodes = g.nodes := by
    intro sN ms2
    induction ms2 with
    | nil => intro g; rfl
    | cons d rest ih => intro g; rw [List.foldl_cons, ih, hone]
  induction ns with
  | nil => intro g; rfl
  | cons sN rest ih =>
    intro g
    unfold mergeEdges at ih ⊢
    rw [List.foldl_cons, ih, hinner]

/-- Node provenance through the upsert query: a node of the result either
keeps the name and labels of a node of the input store, or is one of the two
freshly created nodes. -/
theorem addMemoryQuery_mem_nodes (st sN dt dN rel : String) (se de : List ℚ)
    (u : String) (now : ℕ) (g : Graph) :
    ∀ n ∈ (addMemoryQuery st sN dt dN rel se de u now g).nodes,
      (∃ n0 ∈ g.nodes, n.name = n0.name ∧ n.labels = n0.labels) ∨
      (n.name = sN ∧ n.labels = [st]) ∨ (n.name = dN ∧ n.labels = [dt]) := by
  intro n hn
  unfold addMemoryQuery at hn
  rw [mergeEdges_nodes] at hn
  rcases mergeNodeLabeled_mem_nodes dt dN u de now _ n hn with ⟨n1, hn1, he1⟩ | h
  · rcases mergeNodeLabeled_mem_nodes st sN u se now g n1 hn1 with ⟨n0, hn0, he0⟩ | h
    · exact Or.inl ⟨n0, hn0, he1.1.trans he0.1, he1.2.trans he0.2⟩
    · exact Or.inr (Or.inl ⟨he1.1.trans h.1, he1.2.trans h.2⟩)
  · exact Or.inr (Or.inr h)

theorem addMemoryQuery_mem_edges (st sN dt dN rel : String) (se de : List ℚ)
    (u : String) (now : ℕ) (g : Graph) :
    ∀ e ∈ (addMemoryQuery st sN dt dN rel se de u now g).edges,
      e ∈ g.edges ∨ e.typ = rel := by
  intro e he
  unfold addMemoryQuery at he
  rcases mergeEdges_mem _ _ rel now _ e he with h | h
  · rw [mergeNodeLabeled_edges, mergeNodeLabeled_edges] at h
    exact Or.inl h
  · exact Or.inr h

/-- C3 counterexample: `_update_relationship("Alice", "Acme", "works at",
filters)` sends the raw node names to the store — the created nodes are named
`Alice` and `Acme`, not their normalized forms, so a later lookup under the
normalized name `alice` finds nothing. -/
theorem claim_C3_counterexample :
    ((updateRelationship "Alice" "Acme" "works at" "u" emptyGraph).2.nodes.map
      GNode.name) = ["Alice", "Acme"] ∧
    normalize "Alice" ≠ "Alice" ∧
    matchNU "alice" "u" (updateRelationship "Alice" "Acme" "works at" "u" emptyGraph).2 =
      [] ∧
    ((updateRelationship "Alice" "Acme" "works at" "u" emptyGraph).2.edges.map
      GEdge.typ) = ["works_at"] := by
  refine ⟨?_, ?_, ?_, ?_⟩ <;> decide

/-- C3 (amended): the textual keys sent to the store by the upsert path of
`add` (node names, node labels, relationship type) and the relationship label
used by `_update_relationship` are all first normalized; the source and
target node names passed to `_update_relationship`, however, reach the store
raw (see the counterexample).  Candidate node names embedded during retrieval
are normalized as well, and variants differing in case or space collapse. -/
theorem claim_C3 (st sN dt dN rel : String) (se de : List ℚ) (u : String)
    (now : ℕ) (g : Graph) (s2 t2 rel2 : String) :
    (∀ n ∈ (addMemoryQuery (normalize st) (normalize sN) (normalize dt) (normalize dN)
        (normalize rel) se de u now g).nodes,
      (∃ n0 ∈ g.nodes, n.name = n0.name ∧ n.labels = n0.labels) ∨
      ((∃ raw, n.name = normalize raw) ∧ ∀ lab ∈ n.labels, ∃ raw, lab = normalize raw)) ∧
    (∀ e ∈ (addMemoryQuery (normalize st) (normalize sN) (normalize dt) (normalize dN)
        (normalize rel) se de u now g).edges,
      e ∈ g.edges ∨ ∃ raw, e.typ = normalize raw) ∧
    (∀ e ∈ (updateRelationship s2 t2 rel2 u g).2.edges,
      e ∈ g.edges ∨ e.typ = normalize rel2) ∧
    normalize "Acme Corp" = "acme_corp" ∧ normalize "acme_corp" = "acme_corp" ∧
    normalize "ACME CORP" = "acme_corp" := by
  refine ⟨?_, ?_, updateRelationship_edge_prov s2 t2 rel2 u g, by decide, by decide, by decide⟩
  · intro n hn
    rcases addMemoryQuery_mem_nodes _ _ _ _ _ se de u now g n hn with h | h | h
    · exact Or.inl h
    · refine Or.inr ⟨⟨sN, h.1⟩, ?_⟩
      intro lab hlab
      rw [h.2] at hlab
      simp only [List.mem_singleton] at hlab
      exact ⟨st, hlab⟩
    · refine Or.inr ⟨⟨dN, h.1⟩, ?_⟩
      intro lab hlab
      rw [h.2] at hlab
      simp only [List.mem_singleton] at hlab
      exact ⟨dt, hlab⟩
  · intro e he
    rcases addMemoryQuery_mem_edges _ _ _ _ _ se de u now g e he with h | h
    · exact Or.inl h
    · exact Or.inr ⟨rel, h⟩

/-- C3 witness at concrete inputs. -/
theorem claim_C3_witness :
    (∀ n ∈ (addMemoryQuery (normalize "Person") (normalize "Alice B") (normalize "Org")
        (normalize "Acme Corp") (normalize "works AT") [1] [1] "u" 0 emptyGraph).nodes,
      (∃ n0 ∈ emptyGraph.nodes, n.name = n0.name ∧ n.labels = n0.labels) ∨
      ((∃ raw, n.name = normalize raw) ∧ ∀ lab ∈ n.labels, ∃ raw, lab = normalize raw)) ∧
    (∀ e ∈ (addMemoryQuery (normalize "Person") (normalize "Alice B") (normalize "Org")
        (normalize "Acme Corp") (normalize "works AT") [1] [1] "u" 0 emptyGraph).edges,
      e ∈ emptyGraph.edges ∨ ∃ raw, e.typ = normalize raw) ∧
    (∀ e ∈ (updateRelationship "x" "y" "lives IN" "u" emptyGraph).2.edges,
      e ∈ emptyGraph.edges ∨ e.typ = normalize "lives IN") ∧
    normalize "Acme Corp" = "acme_corp" ∧ normalize "acme_corp" = "acme_corp" ∧
    normalize "ACME CORP" = "acme_corp" :=
  claim_C3 "Person" "Alice B" "Org" "Acme Corp" "works AT" [1] [1] "u" 0 emptyGraph
    "x" "y" "lives IN"

/-! ## C10 -/

/-- The edge `e` runs from a node named `s` to a node named `t`, both owned
by `u`, in the store `g`. -/
def edgeFromTo (g : Graph) (e : GEdge) (s t u : String) : Prop :=
  (∃ n ∈ g.nodes, n.nid = e.src ∧ n.name = s ∧ n.user_id = u) ∧
  (∃ m ∈ g.nodes, m.nid = e.dst ∧ m.name = t ∧ m.user_id = u)

theorem mergeNodePlain_nextId (nm u : String) (g : Graph) :
    g.nextId ≤ (mergeNodePlain nm u g).nextId := by
  unfold mergeNodePlain
  split
  · exact Nat.le_succ _
  · exact le_rfl

theorem merged2_mem_nodes (sN tN u : String) (g : Graph) :
    ∀ n ∈ (mergeNodePlain tN u (mergeNodePlain sN u g)).nodes,
      n ∈ g.nodes ∨ g.nextId ≤ n.nid := by
  intro n hn
  rcases mergeNodePlain_mem_nodes tN u _ n hn with h | h
  · rcases mergeNodePlain_mem_nodes sN u g n h with h2 | h2
    · exact Or.inl h2
    · right
      rw [h2]
  · right
    rw [h]
    exact mergeNodePlain_nextId sN u g

/-- C10: `_update_relationship(source, target, relationship, filters)` deletes
only edges directed from a source-named node to a target-named node of that
user: every other edge of the store — including any reverse edge from target
to source and every edge incident to other nodes — survives unchanged, and
the only new edges are ones labeled with the normalized relationship running
from a source-named node to a target-named node. -/
theorem claim_C10 (source target relationship u : String) (g : Graph) (hwf : g.WF) :
    (∀ e ∈ g.edges, ¬ edgeFromTo g e source target u →
      e ∈ (updateRelationship source target relationship u g).2.edges) ∧
    (∀ e ∈ (updateRelationship source target relationship u g).2.edges,
      e ∈ g.edges ∨
      (e.typ = normalize relationship ∧
        (∃ n ∈ (updateRelationship source target relationship u g).2.nodes,
          n.nid = e.src ∧ n.name = source ∧ n.user_id = u) ∧
        (∃ m ∈ (updateRelationship source target relationship u g).2.nodes,
          m.nid = e.dst ∧ m.name = target ∧ m.user_id = u))) := by
  obtain ⟨hnd, hed, hep, hnlt, helt⟩ := hwf
  have hsrc_lt : ∀ e ∈ g.edges, e.src < g.nextId := by
    intro e he
    obtain ⟨⟨n, hn, hni⟩, _⟩ := hep e he
    rw [← hni]
    exact hnlt n hn
  have hdst_lt : ∀ e ∈ g.edges, e.dst < g.nextId := by
    intro e he
    obtain ⟨_, ⟨n, hn, hni⟩⟩ := hep e he
    rw [← hni]
    exact hnlt n hn
  have hdescend : ∀ (nm : String) (e : GEdge) (i : ℕ), e ∈ g.edges → i < g.nextId →
      (∃ n1 ∈ matchNU nm u (mergeNodePlain target u (mergeNodePlain source u g)),
        n1.nid = i) →
      ∃ n1 ∈ matchNU nm u g, n1.nid = i := by
    intro nm e i he hilt ⟨n1, hn1, hni⟩
    rw [mem_matchNU] at hn1
    rcases merged2_mem_nodes source target u g n1 hn1.1 with hmem | hge
    · exact ⟨n1, (mem_matchNU nm u g n1).mpr ⟨hmem, hn1.2⟩, hni⟩
    · omega
  constructor
  · intro e he hnft
    rw [updateRelationship_graph]
    simp only [createEdgesBetween]
    apply List.mem_append_left
    apply List.mem_filter.mpr
    refine ⟨by rw [mergeNodePlain_edges, mergeNodePlain_edges]; exact he, ?_⟩
    cases hA : (matchNU source u (mergeNodePlain target u (mergeNodePlain source u g))).any
        (fun n1 => n1.nid == e.src) with
    | false => simp [hA]
    | true =>
      cases hB : (matchNU target u (mergeNodePlain target u (mergeNodePlain source u g))).any
          (fun n2 => n2.nid == e.dst) with
      | false => simp [hB]
      | true =>
        exfalso
        apply hnft
        obtain ⟨n1, hn1, hb1⟩ := List.any_eq_true.mp hA
        obtain ⟨n2, hn2, hb2⟩ := List.any_eq_true.mp hB
        have h1 := hdescend source e e.src he (hsrc_lt e he)
          ⟨n1, hn1, by simpa using hb1⟩
        have h2 := hdescend target e e.dst he (hdst_lt e he)
          ⟨n2, hn2, by simpa using hb2⟩
        obtain ⟨m1, hm1, hmi1⟩ := h1
        obtain ⟨m2, hm2, hmi2⟩ := h2
        rw [mem_matchNU] at hm1 hm2
        exact ⟨⟨m1, hm1.1, hmi1, hm1.2⟩, ⟨m2, hm2.1, hmi2, hm2.2⟩⟩
  · intro e he
    rw [updateRelationship_graph] at he
    rcases createEdgesBetween_mem_edges _ _ _ _ _ e he with h | ⟨htyp, ⟨n1, hn1, hi1⟩, ⟨n2, hn2, hi2⟩⟩
    · left
      have h2 := (List.mem_filter.mp h).1
      rwa [mergeNodePlain_edges, mergeNodePlain_edges] at h2
    · right
      rw [mem_matchNU] at hn1 hn2
      refine ⟨htyp, ⟨n1, ?_, hi1, hn1.2⟩, ⟨n2, ?_, hi2, hn2.2⟩⟩
      · rw [updateRelationship_graph, createEdgesBetween_nodes, deleteEdgesBetween_nodes]
        exact hn1.1
      · rw [updateRelationship_graph, createEdgesBetween_nodes, deleteEdgesBetween_nodes]
        exact hn2.1

/-- C10 witness: a store with a forward, a reverse and an unrelated edge. -/
def gW10 : Graph :=
  ⟨[⟨0, [], "alice", "u", none, none⟩, ⟨1, [], "acme", "u", none, none⟩,
    ⟨2, [], "carol", "u", none, none⟩],
   [⟨3, 0, 1, "worked_at", none⟩, ⟨4, 1, 0, "employs", none⟩, ⟨5, 2, 0, "knows", none⟩], 6⟩

theorem claim_C10_witness :
    ((∀ e ∈ gW10.edges, ¬ edgeFromTo gW10 e "alice" "acme" "u" →
      e ∈ (updateRelationship "alice" "acme" "works_at" "u" gW10).2.edges) ∧
    (∀ e ∈ (updateRelationship "alice" "acme" "works_at" "u" gW10).2.edges,
      e ∈ gW10.edges ∨
      (e.typ = normalize "works_at" ∧
        (∃ n ∈ (updateRelationship "alice" "acme" "works_at" "u" gW10).2.nodes,
          n.nid = e.src ∧ n.name = "alice" ∧ n.user_id = "u") ∧
        (∃ m ∈ (updateRelationship "alice" "acme" "works_at" "u" gW10).2.nodes,
          m.nid = e.dst ∧ m.name = "acme" ∧ m.user_id = "u")))) ∧
    (⟨4, 1, 0, "employs", none⟩ : GEdge) ∈
      (updateRelationship "alice" "acme" "works_at" "u" gW10).2.edges ∧
    (⟨5, 2, 0, "knows", none⟩ : GEdge) ∈
      (updateRelationship "alice" "acme" "works_at" "u" gW10).2.edges ∧
    (⟨3, 0, 1, "worked_at", none⟩ : GEdge) ∉
      (updateRelationship "alice" "acme" "works_at" "u" gW10).2.edges := by
  refine ⟨claim_C10 "alice" "acme" "works_at" "u" gW10 (by decide), ?_, ?_, ?_⟩ <;> decide

/-! ## C5 -/

theorem normSq_nonneg (a : List ℚ) : 0 ≤ normSq a := by
  unfold normSq dotQ
  induction a with
  | nil => simp
  | cons x xs ih =>
    rw [List.zipWith_cons_cons, List.sum_cons]
    exact add_nonneg (mul_self_nonneg x) ih

/-- The rounded-similarity threshold test over the rationals agrees with the
real-number reading `round(10^4 * d / sqrt xy) / 10^4 >= 0.7`. -/
theorem threshold_iff_real (d xy : ℚ) (h0 : 0 ≤ xy) :
    ((7 : ℚ) / 10 ≤ simRound4 d xy) ↔
      (7 / 10 : ℝ) ≤
        ((round ((10 ^ 4 : ℝ) * ((d : ℝ) / Real.sqrt (xy : ℝ))) : ℤ) : ℝ) / 10 ^ 4 := by
  rcases eq_or_lt_of_le h0 with heq | hpos
  · rw [← heq]
    have hL : simRound4 d 0 = 0 := by
      rw [simRound4, if_pos le_rfl]
    have hR : ((round ((10 ^ 4 : ℝ) * ((d : ℝ) / Real.sqrt ((0 : ℚ) : ℝ))) : ℤ) : ℝ) = 0 := by
      rw [Rat.cast_zero, Real.sqrt_zero, div_zero, mul_zero, round_zero, Int.cast_zero]
    rw [hL, hR]
    constructor
    · intro h
      exfalso
      norm_num at h
    · intro h
      exfalso
      rw [zero_div] at h
      norm_num at h
  · have hmain := simRound4_eq_real d xy hpos
    have h79 : ((7 / 10 : ℚ) : ℝ) = (7 / 10 : ℝ) := by push_cast; ring
    constructor
    · intro h
      have hcast : ((7 / 10 : ℚ) : ℝ) ≤ ((simRound4 d xy : ℚ) : ℝ) := by exact_mod_cast h
      rw [hmain, h79] at hcast
      exact hcast
    · intro h
      have hcast : ((7 / 10 : ℚ) : ℝ) ≤ ((simRound4 d xy : ℚ) : ℝ) := by
        rw [hmain, h79]
        exact h
      exact_mod_cast hcast

theorem mem_searchQueryExec (e : List ℚ) (θ : ℚ) (u : String) (g : Graph)
    (row : SearchRow) :
    row ∈ searchQueryExec e θ u g ↔
      ∃ p ∈ includedNodes e θ u g, row ∈ outRows g p.1 p.2 ∨ row ∈ inRows g p.1 p.2 := by
  simp only [searchQueryExec]
  rw [List.Perm.mem_iff (sortBy_perm _ _), List.mem_dedup, List.mem_append]
  constructor
  · rintro (h | h) <;> rcases List.mem_flatMap.mp h with ⟨p, hp, hmem⟩
    · exact ⟨p, hp, Or.inl hmem⟩
    · exact ⟨p, hp, Or.inr hmem⟩
  · rintro ⟨p, hp, h | h⟩
    · exact Or.inl (List.mem_flatMap.mpr ⟨p, hp, h⟩)
    · exact Or.inr (List.mem_flatMap.mpr ⟨p, hp, h⟩)

theorem mem_includedNodes (e : List ℚ) (θ : ℚ) (u : String) (g : Graph)
    (n : GNode) (s : ℚ) :
    (n, s) ∈ includedNodes e θ u g ↔
      n ∈ g.nodes ∧ n.user_id = u ∧
        (∃ v, n.embedding = some v ∧ storedSim v e = some s) ∧ θ ≤ s := by
  unfold includedNodes
  rw [List.mem_filterMap]
  constructor
  · rintro ⟨a, ha, hfa⟩
    by_cases hu : a.user_id = u
    · rw [if_pos hu] at hfa
      cases hemb : a.embedding with
      | none => simp [hemb] at hfa
      | some v =>
        simp only [hemb] at hfa
        cases hss : storedSim v e with
        | none => simp [hss] at hfa
        | some s2 =>
          simp only [hss] at hfa
          by_cases hθ : θ ≤ s2
          · rw [if_pos hθ] at hfa
            have h2 : a = n ∧ s2 = s := by
              have := Option.some.inj hfa
              exact ⟨congrArg Prod.fst this, congrArg Prod.snd this⟩
            obtain ⟨rfl, rfl⟩ := h2
            exact ⟨ha, hu, ⟨v, hemb, hss⟩, hθ⟩
          · rw [if_neg hθ] at hfa
            exact absurd hfa (by simp)
    · rw [if_neg hu] at hfa
      exact absurd hfa (by simp)
  · rintro ⟨ha, hu, ⟨v, hemb, hss⟩, hθ⟩
    exact ⟨n, ha, by simp only [if_pos hu, hemb, hss, if_pos hθ]⟩

theorem mem_outRows (g : Graph) (n : GNode) (s : ℚ) (row : SearchRow) :
    row ∈ outRows g n s ↔
      ∃ r ∈ g.edges, r.src = n.nid ∧ ∃ m, g.node? r.dst = some m ∧
        row = ⟨n.name, n.nid, r.typ, r.eid, m.name, m.nid, s⟩ := by
  unfold outRows
  rw [List.mem_filterMap]
  constructor
  · rintro ⟨r, hr, hfr⟩
    by_cases hsrc : r.src = n.nid
    · rw [if_pos hsrc] at hfr
      cases hm : g.node? r.dst with
      | none => simp [hm] at hfr
      | some m =>
        simp only [hm] at hfr
        exact ⟨r, hr, hsrc, m, hm, (Option.some.inj hfr).symm⟩
    · rw [if_neg hsrc] at hfr
      exact absurd hfr (by simp)
  · rintro ⟨r, hr, hsrc, m, hm, rfl⟩
    exact ⟨r, hr, by simp only [if_pos hsrc, hm]⟩

theorem mem_inRows (g : Graph) (n : GNode) (s : ℚ) (row : SearchRow) :
    row ∈ inRows g n s ↔
      ∃ r ∈ g.edges, r.dst = n.nid ∧ ∃ m, g.node? r.src = some m ∧
        row = ⟨m.name, m.nid, r.typ, r.eid, n.name, n.nid, s⟩ := by
  unfold inRows
  rw [List.mem_filterMap]
  constructor
  · rintro ⟨r, hr, hfr⟩
    by_cases hdst : r.dst = n.nid
    · rw [if_pos hdst] at hfr
      cases hm : g.node? r.src with
      | none => simp [hm] at hfr
      | some m =>
        simp only [hm] at hfr
        exact ⟨r, hr, hdst, m, hm, (Option.some.inj hfr).symm⟩
    · rw [if_neg hdst] at hfr
      exact absurd hfr (by simp)
  · rintro ⟨r, hr, hdst, m, hm, rfl⟩
    exact ⟨r, hr, by simp only [if_pos hdst, hm]⟩

/-- Every row the retrieval query returns carries a similarity at or above
the threshold. -/
theorem searchQueryExec_sim_ge (e : List ℚ) (θ : ℚ) (u : String) (g : Graph) :
    ∀ row ∈ searchQueryExec e θ u g, θ ≤ row.similarity := by
  intro row hrow
  rcases (mem_searchQueryExec e θ u g row).mp hrow with ⟨⟨n, s⟩, hp, h | h⟩
  · have hθ := ((mem_includedNodes e θ u g n s).mp hp).2.2.2
    rcases (mem_outRows g n s row).mp h with ⟨r, _, _, m, _, rfl⟩
    exact hθ
  · have hθ := ((mem_includedNodes e θ u g n s).mp hp).2.2.2
    rcases (mem_inRows g n s row).mp h with ⟨r, _, _, m, _, rfl⟩
    exact hθ

set_option maxHeartbeats 1000000 in
/-- C5: for a stored node owned by the requesting user with a non-null
embedding of matching dimension, its (outgoing and incoming) edges are
returned by the retrieval query exactly when the cosine similarity between
the stored and candidate embeddings, rounded to 4 decimal places inside the
query, is at least the 0.70 threshold — a rounded similarity of exactly 0.70
is included, one strictly below is excluded. -/
theorem claim_C5 (g : Graph) (u : String) (e : List ℚ) (n : GNode) (v : List ℚ)
    (r : GEdge) (m : GNode)
    (hn : n ∈ g.nodes) (hv : n.embedding = some v) (hu : n.user_id = u)
    (hlen : v.length = e.length) (hr : r ∈ g.edges) :
    (r.src = n.nid → g.node? r.dst = some m →
      (((⟨n.name, n.nid, r.typ, r.eid, m.name, m.nid,
          simRound4 (dotQ v e) (normSq v * normSq e)⟩ : SearchRow) ∈
          searchQueryExec e (7 / 10) u g) ↔
        (7 / 10 : ℝ) ≤
          ((round ((10 ^ 4 : ℝ) * ((dotQ v e : ℝ) /
            (Real.sqrt ((normSq v : ℚ) : ℝ) * Real.sqrt ((normSq e : ℚ) : ℝ)))) : ℤ) : ℝ) /
            10 ^ 4)) ∧
    (r.dst = n.nid → g.node? r.src = some m →
      (((⟨m.name, m.nid, r.typ, r.eid, n.name, n.nid,
          simRound4 (dotQ v e) (normSq v * normSq e)⟩ : SearchRow) ∈
          searchQueryExec e (7 / 10) u g) ↔
        (7 / 10 : ℝ) ≤
          ((round ((10 ^ 4 : ℝ) * ((dotQ v e : ℝ) /
            (Real.sqrt ((normSq v : ℚ) : ℝ) * Real.sqrt ((normSq e : ℚ) : ℝ)))) : ℤ) : ℝ) /
            10 ^ 4)) := by
  have hss : storedSim v e = some (simRound4 (dotQ v e) (normSq v * normSq e)) := by
    rw [storedSim, if_pos (le_of_eq hlen)]
  have hsqrt : Real.sqrt ((normSq v * normSq e : ℚ) : ℝ) =
      Real.sqrt ((normSq v : ℚ) : ℝ) * Real.sqrt ((normSq e : ℚ) : ℝ) := by
    push_cast
    exact Real.sqrt_mul (by exact_mod_cast normSq_nonneg v) _
  have hcore : ((7 : ℚ) / 10 ≤ simRound4 (dotQ v e) (normSq v * normSq e)) ↔
      (7 / 10 : ℝ) ≤
        ((round ((10 ^ 4 : ℝ) * ((dotQ v e : ℝ) /
          (Real.sqrt ((normSq v : ℚ) : ℝ) * Real.sqrt ((normSq e : ℚ) : ℝ)))) : ℤ) : ℝ) /
          10 ^ 4 := by
    rw [← hsqrt]
    exact threshold_iff_real (dotQ v e) (normSq v * normSq e)
      (mul_nonneg (normSq_nonneg v) (normSq_nonneg e))
  constructor
  · intro hsrc hm
    rw [← hcore]
    constructor
    · intro hrow
      exact searchQueryExec_sim_ge e (7 / 10) u g _ hrow
    · intro hθ
      apply (mem_searchQueryExec e (7 / 10) u g _).mpr
      refine ⟨(n, simRound4 (dotQ v e) (normSq v * normSq e)), ?_, Or.inl ?_⟩
      · exact (mem_includedNodes e (7 / 10) u g n _).mpr ⟨hn, hu, ⟨v, hv, hss⟩, hθ⟩
      · exact (mem_outRows g n _ _).mpr ⟨r, hr, hsrc, m, hm, rfl⟩
  · intro hdst hm
    rw [← hcore]
    constructor
    · intro hrow
      exact searchQueryExec_sim_ge e (7 / 10) u g _ hrow
    · intro hθ
      apply (mem_searchQueryExec e (7 / 10) u g _).mpr
      refine ⟨(n, simRound4 (dotQ v e) (normSq v * normSq e)), ?_, Or.inr ?_⟩
      · exact (mem_includedNodes e (7 / 10) u g n _).mpr ⟨hn, hu, ⟨v, hv, hss⟩, hθ⟩
      · exact (mem_inRows g n _ _).mpr ⟨r, hr, hdst, m, hm, rfl⟩

/-- C5 witness: the boundary instance — stored embedding `[1, 1, 0]` against
candidate `[3, 4, 5]` has cosine similarity exactly 0.70 and is included;
stored `[1, 0, 0]` against the same candidate rounds to 0.4243 and is
excluded. -/
def gW5 : Graph :=
  ⟨[⟨0, ["person"], "alice", "A", some [1, 1, 0], some 0⟩,
    ⟨1, ["person"], "carol", "A", some [1, 0, 0], some 0⟩,
    ⟨2, ["org"], "acme", "A", none, none⟩],
   [⟨3, 0, 2, "works_at", some 0⟩, ⟨4, 1, 2, "works_at", some 0⟩], 5⟩

theorem claim_C5_witness :
    ((⟨0, ["person"], "alice", "A", some [1, 1, 0], some 0⟩ : GNode) ∈ gW5.nodes ∧
     (⟨3, 0, 2, "works_at", some 0⟩ : GEdge) ∈ gW5.edges ∧
     simRound4 (dotQ [1, 1, 0] [3, 4, 5]) (normSq [1, 1, 0] * normSq [3, 4, 5]) = 7 / 10 ∧
     simRound4 (dotQ [1, 0, 0] [3, 4, 5]) (normSq [1, 0, 0] * normSq [3, 4, 5]) =
       4243 / 10 ^ 4 ∧
     ((⟨"alice", 0, "works_at", 3, "acme", 2, 7 / 10⟩ : SearchRow) ∈
       searchQueryExec [3, 4, 5] (7 / 10) "A" gW5) ∧
     ((⟨"carol", 1, "works_at", 4, "acme", 2, 4243 / 10 ^ 4⟩ : SearchRow) ∉
       searchQueryExec [3, 4, 5] (7 / 10) "A" gW5)) ∧
    ((⟨3, 0, 2, "works_at", some 0⟩ : GEdge).src =
        (⟨0, ["person"], "alice", "A", some [1, 1, 0], some 0⟩ : GNode).nid →
      gW5.node? (⟨3, 0, 2, "works_at", some 0⟩ : GEdge).dst =
        some ⟨2, ["org"], "acme", "A", none, none⟩ →
      (((⟨"alice", 0, "works_at", 3, "acme", 2,
          simRound4 (dotQ [1, 1, 0] [3, 4, 5]) (normSq [1, 1, 0] * normSq [3, 4, 5])⟩ :
            SearchRow) ∈ searchQueryExec [3, 4, 5] (7 / 10) "A" gW5) ↔
        (7 / 10 : ℝ) ≤
          ((round ((10 ^ 4 : ℝ) * ((dotQ [1, 1, 0] [3, 4, 5] : ℝ) /
            (Real.sqrt ((normSq [1, 1, 0] : ℚ) : ℝ) *
             Real.sqrt ((normSq [3, 4, 5] : ℚ) : ℝ)))) : ℤ) : ℝ) / 10 ^ 4)) := by
  refine ⟨?_, ?_⟩
  · refine ⟨by decide, by decide, by decide, by decide, by decide, by decide⟩
  · exact (claim_C5 gW5 "A" [3, 4, 5] ⟨0, ["person"], "alice", "A", some [1, 1, 0], some 0⟩
      [1, 1, 0] ⟨3, 0, 2, "works_at", some 0⟩ ⟨2, ["org"], "acme", "A", none, none⟩
      (by decide) (by decide) (by decide) (by decide) (by decide)).1

/-! ## C7 -/

theorem matchNU_congr (nm u : String) (g1 g2 : Graph) (h : g1.nodes = g2.nodes) :
    matchNU nm u g1 = matchNU nm u g2 := by
  unfold matchNU
  rw [h]

theorem mergeNodePlain_matchNU_self (nm u : String) (g : Graph) :
    matchNU nm u (mergeNodePlain nm u g) =
      if (matchNU nm u g).isEmpty then [⟨g.nextId, [], nm, u, none, none⟩]
      else matchNU nm u g := by
  unfold mergeNodePlain
  by_cases h : (matchNU nm u g).isEmpty
  · rw [if_pos h, if_pos h]
    unfold matchNU
    rw [List.filter_append]
    have h0 : matchNU nm u g = [] := List.isEmpty_iff.mp h
    unfold matchNU at h0
    rw [h0]
    simp
  · rw [if_neg h, if_neg h]

theorem mergeNodePlain_matchNU_other (nm nm2 u : String) (g : Graph) (h : nm2 ≠ nm) :
    matchNU nm2 u (mergeNodePlain nm u g) = matchNU nm2 u g := by
  unfold mergeNodePlain
  by_cases he : (matchNU nm u g).isEmpty
  · rw [if_pos he]
    unfold matchNU
    rw [List.filter_append]
    have hnew : (([⟨g.nextId, [], nm, u, none, none⟩] : List GNode).filter
        (fun n => n.name == nm2 && n.user_id == u)) = [] := by
      simp [Ne.symm h]
    rw [hnew, List.append_nil]
  · rw [if_neg he]

/-- `_update_relationship` on a store holding at most one node per endpoint
name: afterwards each name matches exactly one node, and exactly one edge —
typed with the normalized relationship — runs from the source node to the
target node. -/
theorem updateRelationship_types (sN tN rel u : String) (g : Graph) (hst : sN ≠ tN)
    (ha : (matchNU sN u g).length ≤ 1) (hb : (matchNU tN u g).length ≤ 1) :
    ∃ na nc : GNode,
      matchNU sN u (updateRelationship sN tN rel u g).2 = [na] ∧
      matchNU tN u (updateRelationship sN tN rel u g).2 = [nc] ∧
      ((updateRelationship sN tN rel u g).2.edges.filter
        (fun r => na.nid == r.src && nc.nid == r.dst)).map GEdge.typ = [normalize rel] := by
  have singleton_of : ∀ (l : List GNode), l.length ≤ 1 → ¬ l.isEmpty = true → ∃ x, l = [x] := by
    intro l hlen hne
    have : l.length = 1 := by
      rcases Nat.lt_or_ge l.length 1 with h1 | h1
      · exfalso
        apply hne
        rw [List.isEmpty_iff, ← List.length_eq_zero]
        omega
      · omega
    exact List.length_eq_one.mp this
  have hA2 : ∃ na, matchNU sN u (mergeNodePlain tN u (mergeNodePlain sN u g)) = [na] := by
    rw [mergeNodePlain_matchNU_other tN sN u _ hst, mergeNodePlain_matchNU_self]
    by_cases he : (matchNU sN u g).isEmpty
    · rw [if_pos he]
      exact ⟨⟨g.nextId, [], sN, u, none, none⟩, rfl⟩
    · rw [if_neg he]
      exact singleton_of _ ha he
  have hC2 : ∃ nc, matchNU tN u (mergeNodePlain tN u (mergeNodePlain sN u g)) = [nc] := by
    rw [mergeNodePlain_matchNU_self,
      mergeNodePlain_matchNU_other sN tN u g (Ne.symm hst)]
    by_cases he : (matchNU tN u g).isEmpty
    · rw [if_pos he]
      exact ⟨⟨(mergeNodePlain sN u g).nextId, [], tN, u, none, none⟩, rfl⟩
    · rw [if_neg he]
      exact singleton_of _ hb he
  obtain ⟨na, hna2⟩ := hA2
  obtain ⟨nc, hnc2⟩ := hC2
  have hnodes : (updateRelationship sN tN rel u g).2.nodes =
      (mergeNodePlain tN u (mergeNodePlain sN u g)).nodes := by
    rw [updateRelationship_graph, createEdgesBetween_nodes, deleteEdgesBetween_nodes]
  have hna3 : matchNU sN u (deleteEdgesBetween sN tN u
      (mergeNodePlain tN u (mergeNodePlain sN u g))) = [na] :=
    (matchNU_congr sN u _ _ (deleteEdgesBetween_nodes sN tN u _)).trans hna2
  have hnc3 : matchNU tN u (deleteEdgesBetween sN tN u
      (mergeNodePlain tN u (mergeNodePlain sN u g))) = [nc] :=
    (matchNU_congr tN u _ _ (deleteEdgesBetween_nodes sN tN u _)).trans hnc2
  refine ⟨na, nc, (matchNU_congr sN u _ _ hnodes).trans hna2,
    (matchNU_congr tN u _ _ hnodes).trans hnc2, ?_⟩
  have hedges : (updateRelationship sN tN rel u g).2.edges =
      (deleteEdgesBetween sN tN u (mergeNodePlain tN u (mergeNodePlain sN u g))).edges ++
        [⟨(deleteEdgesBetween sN tN u (mergeNodePlain tN u (mergeNodePlain sN u g))).nextId,
          na.nid, nc.nid, normalize rel, none⟩] := by
    rw [updateRelationship_graph]
    simp only [createEdgesBetween]
    rw [hna3, hnc3]
    simp
  have hno : ∀ r ∈ (deleteEdgesBetween sN tN u
      (mergeNodePlain tN u (mergeNodePlain sN u g))).edges,
      ¬ ((na.nid == r.src && nc.nid == r.dst) = true) := by
    intro r hr
    simp only [deleteEdgesBetween] at hr
    have hk := (List.mem_filter.mp hr).2
    rw [hna2, hnc2] at hk
    simp only [List.any_cons, List.any_nil, Bool.or_false, Bool.not_eq_true'] at hk
    simp [hk]
  rw [hedges, List.filter_append, List.filter_eq_nil_iff.mpr hno]
  simp

/-- C7 counterexample: when two stored nodes share the name `alice` (reachable
when `add` stored the name under two different inferred type labels), the
create query of `_update_relationship` runs once per matched pair, so the
back-to-back calls leave two `works_at` edges into `acme`, not exactly one. -/
def gC7 : Graph :=
  ⟨[⟨0, ["person"], "alice", "u", none, none⟩, ⟨1, ["agent"], "alice", "u", none, none⟩,
    ⟨2, ["org"], "acme", "u", none, none⟩], [], 3⟩

theorem claim_C7_counterexample :
    ((updateRelationship "alice" "acme" "works_at" "u"
        (updateRelationship "alice" "acme" "worked_at" "u" gC7).2).2.edges.filter
      (fun r =>
        (matchNU "alice" "u" (updateRelationship "alice" "acme" "works_at" "u"
          (updateRelationship "alice" "acme" "worked_at" "u" gC7).2).2).any
            (fun n => n.nid == r.src) &&
        (matchNU "acme" "u" (updateRelationship "alice" "acme" "works_at" "u"
          (updateRelationship "alice" "acme" "worked_at" "u" gC7).2).2).any
            (fun n => n.nid == r.dst))).length = 2 := by
  decide

/-- C7 (amended): provided the store holds at most one node named `alice` and
at most one named `acme` for the user — which a store touched only by this
module's single-label upserts satisfies, but stores holding the same name
under two labels violate — calling `_update_relationship` with `worked_at`
and then `works_at` leaves exactly one edge from the alice node to the acme
node, typed `works_at`, with no `worked_at` edge from alice to acme
remaining. -/
theorem claim_C7 (u : String) (g : Graph)
    (ha : (matchNU "alice" u g).length ≤ 1) (hc : (matchNU "acme" u g).length ≤ 1) :
    ∃ na nc : GNode,
      matchNU "alice" u (updateRelationship "alice" "acme" "works_at" u
        (updateRelationship "alice" "acme" "worked_at" u g).2).2 = [na] ∧
      matchNU "acme" u (updateRelationship "alice" "acme" "works_at" u
        (updateRelationship "alice" "acme" "worked_at" u g).2).2 = [nc] ∧
      ((updateRelationship "alice" "acme" "works_at" u
          (updateRelationship "alice" "acme" "worked_at" u g).2).2.edges.filter
        (fun r => na.nid == r.src && nc.nid == r.dst)).map GEdge.typ = ["works_at"] := by
  obtain ⟨na1, nc1, hA1, hC1, _⟩ :=
    updateRelationship_types "alice" "acme" "worked_at" u g (by decide) ha hc
  have ha2 : (matchNU "alice" u
      (updateRelationship "alice" "acme" "worked_at" u g).2).length ≤ 1 := by
    rw [hA1]
    exact le_rfl
  have hc2 : (matchNU "acme" u
      (updateRelationship "alice" "acme" "worked_at" u g).2).length ≤ 1 := by
    rw [hC1]
    exact le_rfl
  obtain ⟨na, nc, hA, hC, hT⟩ :=
    updateRelationship_types "alice" "acme" "works_at" u
      (updateRelationship "alice" "acme" "worked_at" u g).2 (by decide) ha2 hc2
  have hnorm : normalize "works_at" = "works_at" := by decide
  rw [hnorm] at hT
  exact ⟨na, nc, hA, hC, hT⟩

/-- C7 witness at a concrete store with unique endpoint nodes. -/
def gW7 : Graph :=
  ⟨[⟨0, ["person"], "alice", "u", none, none⟩, ⟨1, ["org"], "acme", "u", none, none⟩],
   [⟨2, 0, 1, "visited", none⟩], 3⟩

theorem claim_C7_witness :
    (matchNU "alice" "u" gW7).length ≤ 1 ∧ (matchNU "acme" "u" gW7).length ≤ 1 ∧
    (∃ na nc : GNode,
      matchNU "alice" "u" (updateRelationship "alice" "acme" "works_at" "u"
        (updateRelationship "alice" "acme" "worked_at" "u" gW7).2).2 = [na] ∧
      matchNU "acme" "u" (updateRelationship "alice" "acme" "works_at" "u"
        (updateRelationship "alice" "acme" "worked_at" "u" gW7).2).2 = [nc] ∧
      ((updateRelationship "alice" "acme" "works_at" "u"
          (updateRelationship "alice" "acme" "worked_at" "u" gW7).2).2.edges.filter
        (fun r => na.nid == r.src && nc.nid == r.dst)).map GEdge.typ = ["works_at"]) := by
  refine ⟨by decide, by decide, ?_⟩
  exact claim_C7 "u" gW7 (by decide) (by decide)

/-! ## C8: the upsert query of `add` run twice (lines 116-136)

Running the upsert Cypher a second time with the same normalized fields and
embeddings must take the `ON MATCH` branches everywhere: the node merges
rewrite the same embeddings in place and the edge merge finds the edge, so
the second run is the identity (in particular the second timestamp never
enters the store). -/

theorem predB_nodeUpd (lab2 nm2 u2 lab nm u : String) (v : List ℚ) (n : GNode) :
    predB lab2 nm2 u2 (nodeUpd lab nm u v n) = predB lab2 nm2 u2 n := by
  unfold nodeUpd
  split
  · rfl
  · rfl

theorem nodeUpd_nid (lab nm u : String) (v : List ℚ) (n : GNode) :
    (nodeUpd lab nm u v n).nid = n.nid := by
  unfold nodeUpd
  split
  · rfl
  · rfl

theorem nodeUpd_fields (lab nm u : String) (v : List ℚ) (n : GNode) :
    (nodeUpd lab nm u v n).nid = n.nid ∧ (nodeUpd lab nm u v n).labels = n.labels ∧
    (nodeUpd lab nm u v n).name = n.name ∧ (nodeUpd lab nm u v n).user_id = n.user_id ∧
    (nodeUpd lab nm u v n).created = n.created := by
  unfold nodeUpd
  split
  · exact ⟨rfl, rfl, rfl, rfl, rfl⟩
  · exact ⟨rfl, rfl, rfl, rfl, rfl⟩

theorem nodeUpd_pos (lab nm u : String) (v : List ℚ) (n : GNode)
    (h : predB lab nm u n = true) :
    nodeUpd lab nm u v n = { n with embedding := some v } := by
  unfold nodeUpd
  rw [if_pos h]

theorem nodeUpd_neg (lab nm u : String) (v : List ℚ) (n : GNode)
    (h : predB lab nm u n = false) :
    nodeUpd lab nm u v n = n := by
  unfold nodeUpd
  simp [h]

theorem predB_setEmb (lab nm u : String) (n : GNode) (e : Option (List ℚ)) :
    predB lab nm u { n with embedding := e } = predB lab nm u n := rfl

theorem setEmb_self (n : GNode) (v : List ℚ) (h : n.embedding = some v) :
    ({ n with embedding := some v } : GNode) = n := by
  cases n with
  | mk nid labels nm uid emb created =>
    simp only at h
    rw [← h]

theorem matchLNU_congr (lab nm u : String) {g1 g2 : Graph} (h : g1.nodes = g2.nodes) :
    matchLNU lab nm u g1 = matchLNU lab nm u g2 := by
  unfold matchLNU
  rw [h]

theorem matchLNU_map_upd (lab2 nm2 u2 lab nm u : String) (v : List ℚ) (g : Graph) :
    matchLNU lab2 nm2 u2 { g with nodes := g.nodes.map (nodeUpd lab nm u v) } =
      (matchLNU lab2 nm2 u2 g).map (nodeUpd lab nm u v) := by
  unfold matchLNU
  rw [List.filter_map]
  congr 1
  apply List.filter_congr
  intro a _
  exact predB_nodeUpd lab2 nm2 u2 lab nm u v a

theorem predB_new_node (lab2 nm2 lab nm u : String) (i : ℕ) (v : List ℚ) (now : ℕ)
    (h : predB lab2 nm2 u (⟨i, [lab], nm, u, some v, some now⟩ : GNode) = true) :
    lab2 = lab ∧ nm = nm2 := by
  simp only [predB] at h
  constructor
  · by_contra hne
    simp [List.contains_cons, beq_iff_eq, hne] at h
  · by_contra hne
    simp [List.contains_cons, beq_iff_eq, hne] at h

/-- How a labeled merge changes the matches of an arbitrary labeled pattern:
the old matches get the embedding update, and at most the one created node is
appended (only when the merge created, and only when that node matches the
pattern). -/
theorem mergeNodeLabeled_matches_pres (lab2 nm2 u2 lab nm u : String) (v : List ℚ)
    (now : ℕ) (g : Graph) :
    ∃ tail : List GNode,
      matchLNU lab2 nm2 u2 (mergeNodeLabeled lab nm u v now g).2 =
        (matchLNU lab2 nm2 u2 g).map (nodeUpd lab nm u v) ++ tail ∧
      (tail = [] ∨
        (tail = [⟨g.nextId, [lab], nm, u, some v, some now⟩] ∧
         matchLNU lab nm u g = [] ∧
         predB lab2 nm2 u2 (⟨g.nextId, [lab], nm, u, some v, some now⟩ : GNode) = true)) := by
  simp only [mergeNodeLabeled]
  by_cases hm : (matchLNU lab nm u g).isEmpty
  · rw [if_pos hm]
    have hnil : matchLNU lab nm u g = [] := by rwa [List.isEmpty_iff] at hm
    have h0 : g.nodes.filter (predB lab nm u) = [] := hnil
    have hnp : ∀ a ∈ g.nodes, ¬ predB lab nm u a = true := List.filter_eq_nil_iff.mp h0
    have hfix : (matchLNU lab2 nm2 u2 g).map (nodeUpd lab nm u v) = matchLNU lab2 nm2 u2 g := by
      have hfa : ∀ a ∈ matchLNU lab2 nm2 u2 g, nodeUpd lab nm u v a = id a := by
        intro a ha
        have ha2 : a ∈ g.nodes.filter (predB lab2 nm2 u2) := ha
        have hag : a ∈ g.nodes := (List.mem_filter.mp ha2).1
        show nodeUpd lab nm u v a = a
        unfold nodeUpd
        rw [if_neg (hnp a hag)]
      rw [List.map_congr_left hfa, List.map_id]
    by_cases hp : predB lab2 nm2 u2 (⟨g.nextId, [lab], nm, u, some v, some now⟩ : GNode) = true
    · refine ⟨[⟨g.nextId, [lab], nm, u, some v, some now⟩], ?_, Or.inr ⟨rfl, hnil, hp⟩⟩
      rw [hfix]
      unfold matchLNU
      dsimp only
      rw [List.filter_append]
      simp [List.filter_cons, hp]
    · refine ⟨[], ?_, Or.inl rfl⟩
      rw [hfix, List.append_nil]
      unfold matchLNU
      dsimp only
      rw [List.filter_append]
      simp [List.filter_cons, hp]
  · rw [if_neg hm]
    refine ⟨[], ?_, Or.inl rfl⟩
    rw [List.append_nil]
    exact matchLNU_map_upd lab2 nm2 u2 lab nm u v g

/-- A labeled merge either creates (when nothing matched) or updates every
match in place. -/
theorem mergeNodeLabeled_self_matches (lab nm u : String) (v : List ℚ) (now : ℕ) (g : Graph) :
    (matchLNU lab nm u g = [] ∧
      matchLNU lab nm u (mergeNodeLabeled lab nm u v now g).2 =
        [⟨g.nextId, [lab], nm, u, some v, some now⟩]) ∨
    (matchLNU lab nm u g ≠ [] ∧
      matchLNU lab nm u (mergeNodeLabeled lab nm u v now g).2 =
        (matchLNU lab nm u g).map (nodeUpd lab nm u v)) := by
  simp only [mergeNodeLabeled]
  by_cases hm : (matchLNU lab nm u g).isEmpty
  · left
    have hnil : matchLNU lab nm u g = [] := by rwa [List.isEmpty_iff] at hm
    have h0 : g.nodes.filter (predB lab nm u) = [] := hnil
    refine ⟨hnil, ?_⟩
    rw [if_pos hm]
    have hpnew : predB lab nm u (⟨g.nextId, [lab], nm, u, some v, some now⟩ : GNode) = true := by
      simp [predB, List.contains_cons]
    unfold matchLNU
    dsimp only
    rw [List.filter_append, h0, List.nil_append]
    simp [List.filter_cons, hpnew]
  · right
    have hne : matchLNU lab nm u g ≠ [] := by
      intro h0
      rw [h0] at hm
      exact hm rfl
    refine ⟨hne, ?_⟩
    rw [if_neg hm]
    exact matchLNU_map_upd lab nm u lab nm u v g

theorem mergeNodeLabeled_self_ne (lab nm u : String) (v : List ℚ) (now : ℕ) (g : Graph) :
    matchLNU lab nm u (mergeNodeLabeled lab nm u v now g).2 ≠ [] := by
  rcases mergeNodeLabeled_self_matches lab nm u v now g with ⟨hnil, heq⟩ | ⟨hne, heq⟩
  · rw [heq]
    simp
  · rw [heq]
    simpa using hne

theorem mergeNodeLabeled_self_ids (lab nm u : String) (v : List ℚ) (now : ℕ) (g : Graph) :
    (matchLNU lab nm u (mergeNodeLabeled lab nm u v now g).2).map GNode.nid =
      (mergeNodeLabeled lab nm u v now g).1 := by
  rcases mergeNodeLabeled_self_matches lab nm u v now g with ⟨hnil, heq⟩ | ⟨hne, heq⟩
  · have hm : (matchLNU lab nm u g).isEmpty = true := by
      rw [hnil]
      rfl
    rw [heq]
    simp [mergeNodeLabeled, hm]
  · have hm : (matchLNU lab nm u g).isEmpty = false := by
      rwa [List.isEmpty_eq_false]
    rw [heq, List.map_map]
    have h1 : (matchLNU lab nm u g).map (GNode.nid ∘ nodeUpd lab nm u v) =
        (matchLNU lab nm u g).map GNode.nid :=
      List.map_congr_left (fun a _ => nodeUpd_nid lab nm u v a)
    rw [h1]
    simp [mergeNodeLabeled, hm]

theorem mergeNodeLabeled_self_len (lab nm u : String) (v : List ℚ) (now : ℕ) (g : Graph)
    (h : (matchLNU lab nm u g).length ≤ 1) :
    (matchLNU lab nm u (mergeNodeLabeled lab nm u v now g).2).length = 1 := by
  rcases mergeNodeLabeled_self_matches lab nm u v now g with ⟨hnil, heq⟩ | ⟨hne, heq⟩
  · rw [heq]
    rfl
  · rw [heq, List.length_map]
    have h1 : 0 < (matchLNU lab nm u g).length := List.length_pos.mpr hne
    omega

/-- Matches of one pattern after a merge on a different pattern: the freshly
created node can only match the first pattern when the two patterns coincide,
in which case nothing was created. -/
theorem mergeNodeLabeled_other_matches (lab2 nm2 lab nm u : String) (v : List ℚ)
    (now : ℕ) (g : Graph) (hne2 : matchLNU lab2 nm2 u g ≠ []) :
    matchLNU lab2 nm2 u (mergeNodeLabeled lab nm u v now g).2 =
      (matchLNU lab2 nm2 u g).map (nodeUpd lab nm u v) := by
  obtain ⟨tail, hpres, htail⟩ := mergeNodeLabeled_matches_pres lab2 nm2 u lab nm u v now g
  rcases htail with h0 | ⟨heqt, hnil, hpnew⟩
  · rw [hpres, h0, List.append_nil]
  · exfalso
    obtain ⟨h1, h2⟩ := predB_new_node lab2 nm2 lab nm u g.nextId v now hpnew
    exact hne2 (by rw [h1, ← h2]; exact hnil)

theorem mergeNodeLabeled_other_len (lab2 nm2 lab nm u : String) (v : List ℚ)
    (now : ℕ) (g : Graph) (h : (matchLNU lab2 nm2 u g).length ≤ 1) :
    (matchLNU lab2 nm2 u (mergeNodeLabeled lab nm u v now g).2).length ≤ 1 := by
  obtain ⟨tail, hpres, htail⟩ := mergeNodeLabeled_matches_pres lab2 nm2 u lab nm u v now g
  rcases htail with h0 | ⟨heqt, hnil, hpnew⟩
  · rw [hpres, h0, List.append_nil, List.length_map]
    exact h
  · obtain ⟨h1, h2⟩ := predB_new_node lab2 nm2 lab nm u g.nextId v now hpnew
    have h3 : matchLNU lab2 nm2 u g = [] := by
      rw [h1, ← h2]
      exact hnil
    rw [hpres, heqt, h3]
    simp

theorem mergeNodeLabeled_mem2 (lab nm u : String) (v : List ℚ) (now : ℕ) (g : Graph) :
    ∀ x ∈ (mergeNodeLabeled lab nm u v now g).2.nodes,
      (∃ y ∈ g.nodes, x = nodeUpd lab nm u v y) ∨
      x = ⟨g.nextId, [lab], nm, u, some v, some now⟩ := by
  intro x hx
  simp only [mergeNodeLabeled] at hx
  by_cases hm : (matchLNU lab nm u g).isEmpty
  · rw [if_pos hm] at hx
    have hnil : matchLNU lab nm u g = [] := by rwa [List.isEmpty_iff] at hm
    have h0 : g.nodes.filter (predB lab nm u) = [] := hnil
    have hnp : ∀ a ∈ g.nodes, ¬ predB lab nm u a = true := List.filter_eq_nil_iff.mp h0
    rcases List.mem_append.mp hx with h | h
    · left
      refine ⟨x, h, ?_⟩
      unfold nodeUpd
      rw [if_neg (hnp x h)]
    · right
      simpa using h
  · rw [if_neg hm] at hx
    rcases List.mem_map.mp hx with ⟨y, hy, heq⟩
    exact Or.inl ⟨y, hy, heq.symm⟩

theorem mergeNodeLabeled_emb (lab nm u : String) (v : List ℚ) (now : ℕ) (g : Graph) :
    ∀ x ∈ (mergeNodeLabeled lab nm u v now g).2.nodes,
      predB lab nm u x = true → x.embedding = some v := by
  intro x hx hp
  rcases mergeNodeLabeled_mem2 lab nm u v now g x hx with ⟨y, hy, heq⟩ | heq
  · subst heq
    rw [predB_nodeUpd] at hp
    rw [nodeUpd_pos lab nm u v y hp]
  · subst heq
    rfl

theorem mergeNodeLabeled_forward (lab nm u : String) (v : List ℚ) (now : ℕ) (g : Graph) :
    ∀ n ∈ g.nodes, ∃ n2 ∈ (mergeNodeLabeled lab nm u v now g).2.nodes,
      n2.nid = n.nid ∧ n2.labels = n.labels ∧ n2.name = n.name ∧
      n2.user_id = n.user_id ∧ n2.created = n.created := by
  intro n hn
  simp only [mergeNodeLabeled]
  by_cases hm : (matchLNU lab nm u g).isEmpty
  · rw [if_pos hm]
    exact ⟨n, List.mem_append_left _ hn, rfl, rfl, rfl, rfl, rfl⟩
  · rw [if_neg hm]
    refine ⟨nodeUpd lab nm u v n, List.mem_map_of_mem _ hn, ?_⟩
    exact nodeUpd_fields lab nm u v n

theorem mergeEdge_ensures (a b : ℕ) (rel : String) (now : ℕ) (g : Graph) :
    edgeExists a b rel (mergeEdge a b rel now g) = true := by
  unfold mergeEdge
  by_cases h : edgeExists a b rel g = true
  · rw [if_pos h]
    exact h
  · rw [if_neg h]
    unfold edgeExists
    apply List.any_eq_true.mpr
    refine ⟨⟨g.nextId, a, b, rel, some now⟩, List.mem_append_right _ ?_, ?_⟩
    · exact List.mem_singleton_self _
    · simp

theorem edgeExists_mergeEdge_mono (a b : ℕ) (rel : String) (x y : ℕ) (now : ℕ) (g : Graph)
    (h : edgeExists a b rel g = true) :
    edgeExists a b rel (mergeEdge x y rel now g) = true := by
  unfold mergeEdge
  by_cases hc : edgeExists x y rel g = true
  · rw [if_pos hc]
    exact h
  · rw [if_neg hc]
    unfold edgeExists at h ⊢
    rcases List.any_eq_true.mp h with ⟨e, he, hpe⟩
    exact List.any_eq_true.mpr ⟨e, List.mem_append_left _ he, hpe⟩

theorem mergeEdge_noop (a b : ℕ) (rel : String) (now : ℕ) (g : Graph)
    (h : edgeExists a b rel g = true) : mergeEdge a b rel now g = g := by
  unfold mergeEdge
  rw [if_pos h]

theorem mergeEdge_edges_mono (x y : ℕ) (rel : String) (now : ℕ) (g : Graph) :
    ∀ e ∈ g.edges, e ∈ (mergeEdge x y rel now g).edges := by
  intro e he
  unfold mergeEdge
  split
  · exact he
  · exact List.mem_append_left _ he

theorem edgeExists_innerFold_mono (x a b : ℕ) (rel : String) (now : ℕ) :
    ∀ (ms : List ℕ) (g : Graph), edgeExists a b rel g = true →
      edgeExists a b rel (ms.foldl (fun acc2 d => mergeEdge x d rel now acc2) g) = true := by
  intro ms
  induction ms with
  | nil =>
    intro g h
    exact h
  | cons d rest ih =>
    intro g h
    rw [List.foldl_cons]
    exact ih _ (edgeExists_mergeEdge_mono a b rel x d now g h)

theorem edgeExists_outerFold_mono (a b : ℕ) (rel : String) (now : ℕ) (ms : List ℕ) :
    ∀ (ns : List ℕ) (g : Graph), edgeExists a b rel g = true →
      edgeExists a b rel
        (ns.foldl (fun acc s => ms.foldl (fun acc2 d => mergeEdge s d rel now acc2) acc) g) =
        true := by
  intro ns
  induction ns with
  | nil =>
    intro g h
    exact h
  | cons s rest ih =>
    intro g h
    rw [List.foldl_cons]
    exact ih _ (edgeExists_innerFold_mono s a b rel now ms g h)

theorem innerFold_ensures (x : ℕ) (rel : String) (now : ℕ) :
    ∀ (ms : List ℕ) (g : Graph) (b : ℕ), b ∈ ms →
      edgeExists x b rel (ms.foldl (fun acc2 d => mergeEdge x d rel now acc2) g) = true := by
  intro ms
  induction ms with
  | nil =>
    intro g b hb
    cases hb
  | cons d rest ih =>
    intro g b hb
    rw [List.foldl_cons]
    rcases List.mem_cons.mp hb with heq | hb2
    · subst heq
      exact edgeExists_innerFold_mono x x b rel now rest (mergeEdge x b rel now g)
        (mergeEdge_ensures x b rel now g)
    · exact ih _ b hb2

theorem mergeEdges_ensures (ns ms : List ℕ) (rel : String) (now : ℕ) :
    ∀ (g : Graph) (a : ℕ), a ∈ ns → ∀ b ∈ ms,
      edgeExists a b rel (mergeEdges ns ms rel now g) = true := by
  induction ns with
  | nil =>
    intro g a ha
    cases ha
  | cons s rest ih =>
    intro g a ha b hb
    unfold mergeEdges
    rw [List.foldl_cons]
    rcases List.mem_cons.mp ha with heq | ha2
    · subst heq
      exact edgeExists_outerFold_mono a b rel now ms rest _
        (innerFold_ensures a rel now ms g b hb)
    · exact ih _ a ha2 b hb

theorem innerFold_noop (x : ℕ) (rel : String) (now : ℕ) :
    ∀ (ms : List ℕ) (g : Graph), (∀ b ∈ ms, edgeExists x b rel g = true) →
      ms.foldl (fun acc2 d => mergeEdge x d rel now acc2) g = g := by
  intro ms
  induction ms with
  | nil =>
    intro g _
    rfl
  | cons d rest ih =>
    intro g h
    rw [List.foldl_cons, mergeEdge_noop x d rel now g (h d (List.mem_cons_self d rest))]
    exact ih g (fun b hb => h b (List.mem_cons_of_mem d hb))

theorem mergeEdges_noop (ns ms : List ℕ) (rel : String) (now : ℕ) :
    ∀ g : Graph, (∀ a ∈ ns, ∀ b ∈ ms, edgeExists a b rel g = true) →
      mergeEdges ns ms rel now g = g := by
  induction ns with
  | nil =>
    intro g _
    rfl
  | cons s rest ih =>
    intro g h
    unfold mergeEdges
    rw [List.foldl_cons, innerFold_noop s rel now ms g (h s (List.mem_cons_self s rest))]
    exact ih g (fun a ha b hb => h a (List.mem_cons_of_mem s ha) b hb)

theorem innerFold_edges_mono (x : ℕ) (rel : String) (now : ℕ) :
    ∀ (ms : List ℕ) (g : Graph), ∀ e ∈ g.edges,
      e ∈ (ms.foldl (fun acc2 d => mergeEdge x d rel now acc2) g).edges := by
  intro ms
  induction ms with
  | nil =>
    intro g e he
    exact he
  | cons d rest ih =>
    intro g e he
    rw [List.foldl_cons]
    exact ih _ e (mergeEdge_edges_mono x d rel now g e he)

theorem mergeEdges_edges_mono (ns ms : List ℕ) (rel : String) (now : ℕ) :
    ∀ (g : Graph), ∀ e ∈ g.edges, e ∈ (mergeEdges ns ms rel now g).edges := by
  induction ns with
  | nil =>
    intro g e he
    exact he
  | cons s rest ih =>
    intro g e he
    unfold mergeEdges
    rw [List.foldl_cons]
    exact ih _ e (innerFold_edges_mono s rel now ms g e he)

theorem mergeEdge_count (a b : ℕ) (rel : String) (now : ℕ) (g : Graph)
    (h : (g.edges.filter (fun r => r.src == a && r.dst == b && r.typ == rel)).length ≤ 1) :
    ((mergeEdge a b rel now g).edges.filter
      (fun r => r.src == a && r.dst == b && r.typ == rel)).length = 1 := by
  unfold mergeEdge
  by_cases he : edgeExists a b rel g = true
  · rw [if_pos he]
    rcases List.any_eq_true.mp he with ⟨e, hee, hpe⟩
    have hm : e ∈ g.edges.filter (fun r => r.src == a && r.dst == b && r.typ == rel) :=
      List.mem_filter.mpr ⟨hee, hpe⟩
    have h1 := List.length_pos_of_mem hm
    omega
  · rw [if_neg he]
    have h0 : g.edges.filter (fun r => r.src == a && r.dst == b && r.typ == rel) = [] := by
      rw [List.filter_eq_nil_iff]
      intro e hee hpe
      exact he (List.any_eq_true.mpr ⟨e, hee, hpe⟩)
    dsimp only
    rw [List.filter_append, h0, List.nil_append]
    simp [List.filter_cons]

theorem addMemoryQuery_matchS_len (st sN dt dN rel : String) (se de : List ℚ) (u : String)
    (now1 : ℕ) (g : Graph) (hs : (matchLNU st sN u g).length ≤ 1) :
    (matchLNU st sN u (addMemoryQuery st sN dt dN rel se de u now1 g)).length = 1 := by
  simp only [addMemoryQuery]
  rw [matchLNU_congr st sN u (mergeEdges_nodes _ _ rel now1 _)]
  rw [mergeNodeLabeled_other_matches st sN dt dN u de now1 _
    (mergeNodeLabeled_self_ne st sN u se now1 g)]
  rw [List.length_map]
  exact mergeNodeLabeled_self_len st sN u se now1 g hs

theorem addMemoryQuery_matchT_len (st sN dt dN rel : String) (se de : List ℚ) (u : String)
    (now1 : ℕ) (g : Graph) (ht : (matchLNU dt dN u g).length ≤ 1) :
    (matchLNU dt dN u (addMemoryQuery st sN dt dN rel se de u now1 g)).length = 1 := by
  simp only [addMemoryQuery]
  rw [matchLNU_congr dt dN u (mergeEdges_nodes _ _ rel now1 _)]
  exact mergeNodeLabeled_self_len dt dN u de now1 _
    (mergeNodeLabeled_other_len dt dN st sN u se now1 g ht)

theorem addMemoryQuery_idsS (st sN dt dN rel : String) (se de : List ℚ) (u : String)
    (now1 : ℕ) (g : Graph) :
    (matchLNU st sN u (addMemoryQuery st sN dt dN rel se de u now1 g)).map GNode.nid =
      (mergeNodeLabeled st sN u se now1 g).1 := by
  simp only [addMemoryQuery]
  rw [matchLNU_congr st sN u (mergeEdges_nodes _ _ rel now1 _)]
  rw [mergeNodeLabeled_other_matches st sN dt dN u de now1 _
    (mergeNodeLabeled_self_ne st sN u se now1 g)]
  rw [List.map_map]
  have h1 : (matchLNU st sN u (mergeNodeLabeled st sN u se now1 g).2).map
      (GNode.nid ∘ nodeUpd dt dN u de) =
      (matchLNU st sN u (mergeNodeLabeled st sN u se now1 g).2).map GNode.nid :=
    List.map_congr_left (fun a _ => nodeUpd_nid dt dN u de a)
  rw [h1]
  exact mergeNodeLabeled_self_ids st sN u se now1 g

theorem addMemoryQuery_idsT (st sN dt dN rel : String) (se de : List ℚ) (u : String)
    (now1 : ℕ) (g : Graph) :
    (matchLNU dt dN u (addMemoryQuery st sN dt dN rel se de u now1 g)).map GNode.nid =
      (mergeNodeLabeled dt dN u de now1 (mergeNodeLabeled st sN u se now1 g).2).1 := by
  simp only [addMemoryQuery]
  rw [matchLNU_congr dt dN u (mergeEdges_nodes _ _ rel now1 _)]
  exact mergeNodeLabeled_self_ids dt dN u de now1 _

theorem addMemoryQuery_edge_count (st sN dt dN rel : String) (se de : List ℚ) (u : String)
    (now1 : ℕ) (g : Graph)
    (hE : ∀ a b : ℕ,
      (g.edges.filter (fun r => r.src == a && r.dst == b && r.typ == rel)).length ≤ 1) :
    ∀ na ∈ matchLNU st sN u (addMemoryQuery st sN dt dN rel se de u now1 g),
    ∀ nb ∈ matchLNU dt dN u (addMemoryQuery st sN dt dN rel se de u now1 g),
    (matchLNU st sN u (addMemoryQuery st sN dt dN rel se de u now1 g)).length = 1 →
    (matchLNU dt dN u (addMemoryQuery st sN dt dN rel se de u now1 g)).length = 1 →
      ((addMemoryQuery st sN dt dN rel se de u now1 g).edges.filter
        (fun r => r.src == na.nid && r.dst == nb.nid && r.typ == rel)).length = 1 := by
  intro na hna nb hnb e1 e2
  obtain ⟨a0, ha0⟩ := List.length_eq_one.mp e1
  obtain ⟨b0, hb0⟩ := List.length_eq_one.mp e2
  rw [ha0] at hna
  rw [hb0] at hnb
  have hna2 : na = a0 := List.mem_singleton.mp hna
  have hnb2 : nb = b0 := List.mem_singleton.mp hnb
  subst hna2
  subst hnb2
  have hnids : (mergeNodeLabeled st sN u se now1 g).1 = [na.nid] := by
    rw [← addMemoryQuery_idsS st sN dt dN rel se de u now1 g, ha0]
    rfl
  have hmids : (mergeNodeLabeled dt dN u de now1 (mergeNodeLabeled st sN u se now1 g).2).1 =
      [nb.nid] := by
    rw [← addMemoryQuery_idsT st sN dt dN rel se de u now1 g, hb0]
    rfl
  have hres : addMemoryQuery st sN dt dN rel se de u now1 g =
      mergeEdge na.nid nb.nid rel now1
        (mergeNodeLabeled dt dN u de now1 (mergeNodeLabeled st sN u se now1 g).2).2 := by
    simp only [addMemoryQuery]
    rw [hnids, hmids]
    rfl
  rw [hres]
  have hedges : (mergeNodeLabeled dt dN u de now1
      (mergeNodeLabeled st sN u se now1 g).2).2.edges = g.edges := by
    rw [mergeNodeLabeled_edges, mergeNodeLabeled_edges]
  apply mergeEdge_count
  rw [hedges]
  exact hE na.nid nb.nid

theorem addMemoryQuery_forward (st sN dt dN rel : String) (se de : List ℚ) (u : String)
    (now1 : ℕ) (g : Graph) :
    ∀ n ∈ g.nodes, ∃ n2 ∈ (addMemoryQuery st sN dt dN rel se de u now1 g).nodes,
      n2.nid = n.nid ∧ n2.labels = n.labels ∧ n2.name = n.name ∧
      n2.user_id = n.user_id ∧ n2.created = n.created := by
  intro n hn
  obtain ⟨n1, hn1, f1a, f1b, f1c, f1d, f1e⟩ := mergeNodeLabeled_forward st sN u se now1 g n hn
  obtain ⟨n2, hn2, f2a, f2b, f2c, f2d, f2e⟩ :=
    mergeNodeLabeled_forward dt dN u de now1 _ n1 hn1
  refine ⟨n2, ?_, f2a.trans f1a, f2b.trans f1b, f2c.trans f1c, f2d.trans f1d, f2e.trans f1e⟩
  simp only [addMemoryQuery]
  rw [mergeEdges_nodes _ _ rel now1]
  exact hn2

theorem addMemoryQuery_keeps_edges (st sN dt dN rel : String) (se de : List ℚ) (u : String)
    (now1 : ℕ) (g : Graph) :
    ∀ e ∈ g.edges, e ∈ (addMemoryQuery st sN dt dN rel se de u now1 g).edges := by
  intro e he
  simp only [addMemoryQuery]
  apply mergeEdges_edges_mono
  rw [mergeNodeLabeled_edges, mergeNodeLabeled_edges]
  exact he

/-- Running the upsert query a second time (with any second timestamp) is the
identity: all merges take their match branches and rewrite the state in
place. -/
theorem addMemoryQuery_idem (st sN dt dN rel : String) (se de : List ℚ) (u : String)
    (now1 now2 : ℕ) (g : Graph) :
    addMemoryQuery st sN dt dN rel se de u now2
        (addMemoryQuery st sN dt dN rel se de u now1 g) =
      addMemoryQuery st sN dt dN rel se de u now1 g := by
  set ga := (mergeNodeLabeled st sN u se now1 g).2 with hga
  set ns1 := (mergeNodeLabeled st sN u se now1 g).1 with hns1
  set gb := (mergeNodeLabeled dt dN u de now1 ga).2 with hgb
  set ms1 := (mergeNodeLabeled dt dN u de now1 ga).1 with hms1
  set gc := mergeEdges ns1 ms1 rel now1 gb with hgcdef
  have hrun1 : addMemoryQuery st sN dt dN rel se de u now1 g = gc := rfl
  rw [hrun1]
  have hgc_nodes : gc.nodes = gb.nodes := mergeEdges_nodes ns1 ms1 rel now1 gb
  have hedges_gb : gb.edges = g.edges := by
    rw [hgb, mergeNodeLabeled_edges, hga, mergeNodeLabeled_edges]
  have hne_s_ga : matchLNU st sN u ga ≠ [] := by
    rw [hga]
    exact mergeNodeLabeled_self_ne st sN u se now1 g
  have hmatch_s_gb : matchLNU st sN u gb = (matchLNU st sN u ga).map (nodeUpd dt dN u de) := by
    rw [hgb]
    exact mergeNodeLabeled_other_matches st sN dt dN u de now1 ga hne_s_ga
  have hids_s_gb : (matchLNU st sN u gb).map GNode.nid = ns1 := by
    rw [hmatch_s_gb, List.map_map]
    have h1 : (matchLNU st sN u ga).map (GNode.nid ∘ nodeUpd dt dN u de) =
        (matchLNU st sN u ga).map GNode.nid :=
      List.map_congr_left (fun a _ => nodeUpd_nid dt dN u de a)
    rw [h1, hga, hns1]
    exact mergeNodeLabeled_self_ids st sN u se now1 g
  have hne_s_gb : matchLNU st sN u gb ≠ [] := by
    rw [hmatch_s_gb]
    simpa using hne_s_ga
  have hids_t_gb : (matchLNU dt dN u gb).map GNode.nid = ms1 := by
    rw [hgb, hms1]
    exact mergeNodeLabeled_self_ids dt dN u de now1 ga
  have hne_t_gb : matchLNU dt dN u gb ≠ [] := by
    rw [hgb]
    exact mergeNodeLabeled_self_ne dt dN u de now1 ga
  have hembT : ∀ x ∈ gb.nodes, predB dt dN u x = true → x.embedding = some de := by
    rw [hgb]
    exact mergeNodeLabeled_emb dt dN u de now1 ga
  have hembS : ∀ x ∈ gb.nodes, predB st sN u x = true → predB dt dN u x = false →
      x.embedding = some se := by
    intro x hx hps hpt
    have hx2 : x ∈ (mergeNodeLabeled dt dN u de now1 ga).2.nodes := by
      rw [← hgb]
      exact hx
    rcases mergeNodeLabeled_mem2 dt dN u de now1 ga x hx2 with ⟨y, hy, heq⟩ | heq
    · subst heq
      rw [predB_nodeUpd] at hps hpt
      rw [nodeUpd_neg dt dN u de y hpt]
      have hy3 : y ∈ (mergeNodeLabeled st sN u se now1 g).2.nodes := by
        rw [← hga]
        exact hy
      exact mergeNodeLabeled_emb st sN u se now1 g y hy3 hps
    · subst heq
      exfalso
      have hP : predB dt dN u (⟨ga.nextId, [dt], dN, u, some de, some now1⟩ : GNode) = true := by
        simp [predB, List.contains_cons]
      rw [hP] at hpt
      exact Bool.noConfusion hpt
  have hfixpt : ∀ x ∈ gb.nodes, nodeUpd dt dN u de (nodeUpd st sN u se x) = x := by
    intro x hx
    by_cases hs : predB st sN u x = true
    · by_cases htp : predB dt dN u x = true
      · rw [nodeUpd_pos st sN u se x hs]
        rw [nodeUpd_pos dt dN u de _ (by rw [predB_setEmb]; exact htp)]
        calc ({ ({ x with embedding := some se } : GNode) with embedding := some de } : GNode)
            = { x with embedding := some de } := rfl
          _ = x := setEmb_self x de (hembT x hx htp)
      · have ht2 : predB dt dN u x = false := by rwa [Bool.not_eq_true] at htp
        rw [nodeUpd_pos st sN u se x hs]
        rw [nodeUpd_neg dt dN u de _ (by rw [predB_setEmb]; exact ht2)]
        exact setEmb_self x se (hembS x hx hs ht2)
    · have hs2 : predB st sN u x = false := by rwa [Bool.not_eq_true] at hs
      rw [nodeUpd_neg st sN u se x hs2]
      by_cases htp : predB dt dN u x = true
      · rw [nodeUpd_pos dt dN u de x htp]
        exact setEmb_self x de (hembT x hx htp)
      · have ht2 : predB dt dN u x = false := by rwa [Bool.not_eq_true] at htp
        exact nodeUpd_neg dt dN u de x ht2
  have hedge : ∀ a ∈ ns1, ∀ b ∈ ms1, edgeExists a b rel gc = true := by
    intro a ha b hb
    rw [hgcdef]
    exact mergeEdges_ensures ns1 ms1 rel now1 gb a ha b hb
  have hmatch_congr_s : matchLNU st sN u gc = matchLNU st sN u gb :=
    matchLNU_congr st sN u hgc_nodes
  have hmatch_congr_t : matchLNU dt dN u gc = matchLNU dt dN u gb :=
    matchLNU_congr dt dN u hgc_nodes
  have hne_s_gc : (matchLNU st sN u gc).isEmpty = false := by
    rw [List.isEmpty_eq_false, hmatch_congr_s]
    exact hne_s_gb
  have hM1 : mergeNodeLabeled st sN u se now2 gc =
      (ns1, { gc with nodes := gc.nodes.map (nodeUpd st sN u se) }) := by
    simp only [mergeNodeLabeled]
    rw [if_neg (by rw [hne_s_gc]; exact Bool.false_ne_true)]
    rw [hmatch_congr_s, hids_s_gb]
  set gd := ({ gc with nodes := gc.nodes.map (nodeUpd st sN u se) } : Graph) with hgd
  have hM1a : (mergeNodeLabeled st sN u se now2 gc).1 = ns1 := by rw [hM1]
  have hM1b : (mergeNodeLabeled st sN u se now2 gc).2 = gd := by rw [hM1]
  have hmatch_t_gd : matchLNU dt dN u gd = (matchLNU dt dN u gc).map (nodeUpd st sN u se) := by
    rw [hgd]
    exact matchLNU_map_upd dt dN u st sN u se gc
  have hne_t_gd : (matchLNU dt dN u gd).isEmpty = false := by
    rw [List.isEmpty_eq_false, hmatch_t_gd]
    have h2 : matchLNU dt dN u gc ≠ [] := by
      rw [hmatch_congr_t]
      exact hne_t_gb
    simpa using h2
  have hids_t_gd : (matchLNU dt dN u gd).map GNode.nid = ms1 := by
    rw [hmatch_t_gd, List.map_map]
    have h1 : (matchLNU dt dN u gc).map (GNode.nid ∘ nodeUpd st sN u se) =
        (matchLNU dt dN u gc).map GNode.nid :=
      List.map_congr_left (fun a _ => nodeUpd_nid st sN u se a)
    rw [h1, hmatch_congr_t]
    exact hids_t_gb
  have hM2 : mergeNodeLabeled dt dN u de now2 gd =
      (ms1, { gd with nodes := gd.nodes.map (nodeUpd dt dN u de) }) := by
    simp only [mergeNodeLabeled]
    rw [if_neg (by rw [hne_t_gd]; exact Bool.false_ne_true)]
    rw [hids_t_gd]
  have hM2a : (mergeNodeLabeled dt dN u de now2 gd).1 = ms1 := by rw [hM2]
  have hM2b : (mergeNodeLabeled dt dN u de now2 gd).2 =
      { gd with nodes := gd.nodes.map (nodeUpd dt dN u de) } := by rw [hM2]
  have hnodes2 : gd.nodes.map (nodeUpd dt dN u de) = gc.nodes := by
    rw [hgd]
    show (gc.nodes.map (nodeUpd st sN u se)).map (nodeUpd dt dN u de) = gc.nodes
    rw [List.map_map]
    have h1 : ∀ x ∈ gc.nodes, (nodeUpd dt dN u de ∘ nodeUpd st sN u se) x = id x := by
      intro x hx
      have hx2 : x ∈ gb.nodes := by
        rw [← hgc_nodes]
        exact hx
      exact hfixpt x hx2
    rw [List.map_congr_left h1, List.map_id]
  have hged : ({ gd with nodes := gd.nodes.map (nodeUpd dt dN u de) } : Graph) = gc := by
    rw [hnodes2, hgd]
  calc addMemoryQuery st sN dt dN rel se de u now2 gc
      = mergeEdges ns1 ms1 rel now2
          ({ gd with nodes := gd.nodes.map (nodeUpd dt dN u de) }) := by
        simp only [addMemoryQuery]
        rw [hM1a, hM1b, hM2a, hM2b]
    _ = mergeEdges ns1 ms1 rel now2 gc := by rw [hged]
    _ = gc := by
        apply mergeEdges_noop
        intro a ha b hb
        exact hedge a ha b hb

/-- C8: executing the node/edge upsert step of `add` twice with identical
source, source type, destination, destination type, relationship, user id and
embeddings yields a graph state identical to executing it once — the second
run (with an arbitrary fresh timestamp, which therefore never enters the
store: `created` is set only on first creation) is the identity.  Provided
each endpoint identity matches at most one stored node and each (src, dst,
relation) key at most one stored edge beforehand, the once-run state has
exactly one node per touched (name, type, user_id) identity and exactly one
edge per (source node, relation, destination node) identity, and every
pre-existing node keeps its id, labels, name, owner and `created` timestamp
while every pre-existing edge survives. -/
theorem claim_C8 (st sN dt dN rel : String) (se de : List ℚ) (u : String)
    (now1 now2 : ℕ) (g : Graph)
    (hs : (matchLNU st sN u g).length ≤ 1)
    (ht : (matchLNU dt dN u g).length ≤ 1)
    (hE : ∀ a b : ℕ,
      (g.edges.filter (fun r => r.src == a && r.dst == b && r.typ == rel)).length ≤ 1) :
    addMemoryQuery st sN dt dN rel se de u now2
        (addMemoryQuery st sN dt dN rel se de u now1 g) =
      addMemoryQuery st sN dt dN rel se de u now1 g ∧
    (matchLNU st sN u (addMemoryQuery st sN dt dN rel se de u now1 g)).length = 1 ∧
    (matchLNU dt dN u (addMemoryQuery st sN dt dN rel se de u now1 g)).length = 1 ∧
    (∀ na ∈ matchLNU st sN u (addMemoryQuery st sN dt dN rel se de u now1 g),
     ∀ nb ∈ matchLNU dt dN u (addMemoryQuery st sN dt dN rel se de u now1 g),
      ((addMemoryQuery st sN dt dN rel se de u now1 g).edges.filter
        (fun r => r.src == na.nid && r.dst == nb.nid && r.typ == rel)).length = 1) ∧
    (∀ n ∈ g.nodes, ∃ n2 ∈ (addMemoryQuery st sN dt dN rel se de u now1 g).nodes,
      n2.nid = n.nid ∧ n2.labels = n.labels ∧ n2.name = n.name ∧
      n2.user_id = n.user_id ∧ n2.created = n.created) ∧
    (∀ e ∈ g.edges, e ∈ (addMemoryQuery st sN dt dN rel se de u now1 g).edges) := by
  refine ⟨addMemoryQuery_idem st sN dt dN rel se de u now1 now2 g,
          addMemoryQuery_matchS_len st sN dt dN rel se de u now1 g hs,
          addMemoryQuery_matchT_len st sN dt dN rel se de u now1 g ht,
          ?_,
          addMemoryQuery_forward st sN dt dN rel se de u now1 g,
          addMemoryQuery_keeps_edges st sN dt dN rel se de u now1 g⟩
  intro na hna nb hnb
  exact addMemoryQuery_edge_count st sN dt dN rel se de u now1 g hE na hna nb hnb
    (addMemoryQuery_matchS_len st sN dt dN rel se de u now1 g hs)
    (addMemoryQuery_matchT_len st sN dt dN rel se de u now1 g ht)

/-- C8 witness: the upsert of alice works_at acme run at times 5 and then 9
over the empty store, with the hypotheses discharged concretely. -/
theorem claim_C8_witness :
    ((matchLNU "person" "alice" "u" emptyGraph).length ≤ 1 ∧
     (matchLNU "org" "acme" "u" emptyGraph).length ≤ 1 ∧
     (∀ a b : ℕ, (emptyGraph.edges.filter
        (fun r => r.src == a && r.dst == b && r.typ == "works_at")).length ≤ 1)) ∧
    (addMemoryQuery "person" "alice" "org" "acme" "works_at" [1] [2] "u" 9
        (addMemoryQuery "person" "alice" "org" "acme" "works_at" [1] [2] "u" 5 emptyGraph) =
      addMemoryQuery "person" "alice" "org" "acme" "works_at" [1] [2] "u" 5 emptyGraph ∧
     (matchLNU "person" "alice" "u"
        (addMemoryQuery "person" "alice" "org" "acme" "works_at" [1] [2] "u" 5
          emptyGraph)).length = 1 ∧
     (matchLNU "org" "acme" "u"
        (addMemoryQuery "person" "alice" "org" "acme" "works_at" [1] [2] "u" 5
          emptyGraph)).length = 1 ∧
     (∀ na ∈ matchLNU "person" "alice" "u"
        (addMemoryQuery "person" "alice" "org" "acme" "works_at" [1] [2] "u" 5 emptyGraph),
      ∀ nb ∈ matchLNU "org" "acme" "u"
        (addMemoryQuery "person" "alice" "org" "acme" "works_at" [1] [2] "u" 5 emptyGraph),
       ((addMemoryQuery "person" "alice" "org" "acme" "works_at" [1] [2] "u" 5
          emptyGraph).edges.filter
         (fun r => r.src == na.nid && r.dst == nb.nid && r.typ == "works_at")).length = 1) ∧
     (∀ n ∈ emptyGraph.nodes, ∃ n2 ∈ (addMemoryQuery "person" "alice" "org" "acme"
          "works_at" [1] [2] "u" 5 emptyGraph).nodes,
       n2.nid = n.nid ∧ n2.labels = n.labels ∧ n2.name = n.name ∧
       n2.user_id = n.user_id ∧ n2.created = n.created) ∧
     (∀ e ∈ emptyGraph.edges, e ∈ (addMemoryQuery "person" "alice" "org" "acme"
          "works_at" [1] [2] "u" 5 emptyGraph).edges)) := by
  refine ⟨⟨by decide, by decide, ?_⟩, ?_⟩
  · intro a b
    simp [emptyGraph]
  · exact claim_C8 "person" "alice" "org" "acme" "works_at" [1] [2] "u" 5 9 emptyGraph
      (by decide) (by decide) (fun a b => by simp [emptyGraph])

/-! ## C2: tenancy isolation

Every query of the module constrains its node patterns to one `user_id`, and
the module's own edge-creating queries bind both endpoints to the same
`$user_id` parameter; but nothing in the store forbids an edge joining nodes
of different owners, and the retrieval query follows any edge incident to a
matched node without checking the owner of the opposite endpoint.  Isolation
of reads therefore holds exactly on stores whose edges stay within one owner.
-/

/-- Every edge of the store joins two nodes of one owner (no cross-tenant
edges). -/
def crossFree (g : Graph) : Bool :=
  g.edges.all (fun r =>
    match g.node? r.src, g.node? r.dst with
    | some n, some m => n.user_id == m.user_id
    | _, _ => false)

theorem filterMap_congr_mem {α β : Type} (f f2 : α → Option β) (l : List α)
    (h : ∀ a ∈ l, f a = f2 a) : l.filterMap f = l.filterMap f2 := by
  induction l with
  | nil => rfl
  | cons x xs ih =>
    rw [List.filterMap_cons, List.filterMap_cons, h x (List.mem_cons_self x xs),
      ih (fun a ha => h a (List.mem_cons_of_mem x ha))]

theorem flatMap_congr_mem {α β : Type} (f f2 : α → List β) (l : List α)
    (h : ∀ a ∈ l, f a = f2 a) : l.flatMap f = l.flatMap f2 := by
  induction l with
  | nil => rfl
  | cons x xs ih =>
    rw [List.flatMap_cons, List.flatMap_cons, h x (List.mem_cons_self x xs),
      ih (fun a ha => h a (List.mem_cons_of_mem x ha))]

theorem filterMap_filter_sub {α β : Type} (f : α → Option β) (q : α → Bool) (l : List α)
    (h : ∀ a ∈ l, q a = false → f a = none) :
    (l.filter q).filterMap f = l.filterMap f := by
  induction l with
  | nil => rfl
  | cons x xs ih =>
    rw [List.filter_cons]
    by_cases hq : q x = true
    · rw [if_pos hq, List.filterMap_cons, List.filterMap_cons,
        ih (fun a ha hqa => h a (List.mem_cons_of_mem x ha) hqa)]
    · have hq2 : q x = false := by rwa [Bool.not_eq_true] at hq
      rw [if_neg hq, ih (fun a ha hqa => h a (List.mem_cons_of_mem x ha) hqa),
        List.filterMap_cons, h x (List.mem_cons_self x xs) hq2]

theorem find?_nid_eq_some (l : List GNode) (hnd : (l.map GNode.nid).Nodup) (i : ℕ)
    (m : GNode) :
    l.find? (fun n => n.nid == i) = some m ↔ m ∈ l ∧ m.nid = i := by
  constructor
  · intro h
    refine ⟨List.mem_of_find?_eq_some h, ?_⟩
    have h2 := List.find?_some h
    simpa using h2
  · rintro ⟨hmem, hnid⟩
    cases hf : l.find? (fun n => n.nid == i) with
    | none =>
      exfalso
      have h3 := List.find?_eq_none.mp hf m hmem
      simp [hnid] at h3
    | some m2 =>
      have hm2mem := List.mem_of_find?_eq_some hf
      have hm2nid : m2.nid = i := by simpa using List.find?_some hf
      have heq : m2 = m :=
        List.inj_on_of_nodup_map hnd hm2mem hmem (by rw [hm2nid, hnid])
      rw [heq]

theorem node?_eq_some_iff (g : Graph) (hnd : (g.nodes.map GNode.nid).Nodup) (i : ℕ)
    (m : GNode) : g.node? i = some m ↔ m ∈ g.nodes ∧ m.nid = i :=
  find?_nid_eq_some g.nodes hnd i m

theorem node?_filter (g : Graph) (q : GNode → Bool) (i : ℕ) (m : GNode)
    (hnd : (g.nodes.map GNode.nid).Nodup) (hm : g.node? i = some m) (hq : q m = true) :
    (g.nodes.filter q).find? (fun n => n.nid == i) = some m := by
  obtain ⟨hmem, hnid⟩ := (node?_eq_some_iff g hnd i m).mp hm
  have hnd2 : ((g.nodes.filter q).map GNode.nid).Nodup :=
    List.Nodup.sublist (List.Sublist.map GNode.nid (List.filter_sublist g.nodes)) hnd
  exact (find?_nid_eq_some (g.nodes.filter q) hnd2 i m).mpr
    ⟨List.mem_filter.mpr ⟨hmem, hq⟩, hnid⟩

theorem find?_nid_filter_none (l : List GNode) (q : GNode → Bool) (i : ℕ) (m : GNode)
    (hnd : (l.map GNode.nid).Nodup) (hm : l.find? (fun n => n.nid == i) = some m)
    (hq : q m = false) :
    (l.filter q).find? (fun n => n.nid == i) = none := by
  rw [List.find?_eq_none]
  intro x hx hp
  obtain ⟨hxl, hxq⟩ := List.mem_filter.mp hx
  have hxnid : x.nid = i := by simpa using hp
  obtain ⟨hmmem, hmnid⟩ := (find?_nid_eq_some l hnd i m).mp hm
  have hxm : x = m := List.inj_on_of_nodup_map hnd hxl hmmem (by rw [hxnid, hmnid])
  rw [hxm] at hxq
  rw [hxq] at hq
  exact Bool.noConfusion hq

theorem crossFree_endpoints (g : Graph) (hwf : g.WF) (hcf : crossFree g = true) :
    ∀ r ∈ g.edges, ∃ n m, g.node? r.src = some n ∧ g.node? r.dst = some m ∧
      n.user_id = m.user_id := by
  intro r hr
  obtain ⟨hnd, _, hend, _, _⟩ := hwf
  obtain ⟨⟨n, hn, hnnid⟩, ⟨m, hm, hmnid⟩⟩ := hend r hr
  have hsrc : g.node? r.src = some n := (node?_eq_some_iff g hnd r.src n).mpr ⟨hn, hnnid⟩
  have hdst : g.node? r.dst = some m := (node?_eq_some_iff g hnd r.dst m).mpr ⟨hm, hmnid⟩
  unfold crossFree at hcf
  have hall := List.all_eq_true.mp hcf r hr
  simp only [hsrc, hdst] at hall
  refine ⟨n, m, hsrc, hdst, ?_⟩
  simpa using hall

theorem edge_kept_deleteAll (g : Graph) (hnd : (g.nodes.map GNode.nid).Nodup)
    (B : String) (r : GEdge) (n m : GNode)
    (hsrc : g.node? r.src = some n) (hdst : g.node? r.dst = some m)
    (hnB : n.user_id ≠ B) (hmB : m.user_id ≠ B) :
    (g.nodes.any (fun nb => nb.user_id == B && (nb.nid == r.src || nb.nid == r.dst))) =
      false := by
  rw [List.any_eq_false]
  intro nb hnb hp
  have hp2 : nb.user_id = B ∧ (nb.nid = r.src ∨ nb.nid = r.dst) := by
    simpa using hp
  have hinj := List.inj_on_of_nodup_map hnd
  obtain ⟨hnmem, hnnid⟩ := (node?_eq_some_iff g hnd r.src n).mp hsrc
  obtain ⟨hmmem, hmnid⟩ := (node?_eq_some_iff g hnd r.dst m).mp hdst
  rcases hp2.2 with hc | hc
  · have : nb = n := hinj hnb hnmem (by rw [hc, hnnid])
    rw [this] at hp2
    exact hnB hp2.1
  · have : nb = m := hinj hnb hmmem (by rw [hc, hmnid])
    rw [this] at hp2
    exact hmB hp2.1

theorem includedNodes_deleteAll (e : List ℚ) (th : ℚ) (A B : String) (hAB : A ≠ B)
    (g : Graph) : includedNodes e th A (deleteAll B g) = includedNodes e th A g := by
  unfold includedNodes
  have hnodes : (deleteAll B g).nodes = g.nodes.filter (fun n => !(n.user_id == B)) := rfl
  rw [hnodes]
  apply filterMap_filter_sub
  intro n _ hq
  have hB : n.user_id = B := by simpa using hq
  have hnA : ¬ n.user_id = A := by
    intro hA
    rw [hA] at hB
    exact hAB hB
  rw [if_neg hnA]

theorem outRows_eq (G : Graph) (n : GNode) (s : ℚ) :
    outRows G n s = G.edges.filterMap (fun r =>
      if r.src = n.nid then
        (G.node? r.dst).map
          (fun m => (⟨n.name, n.nid, r.typ, r.eid, m.name, m.nid, s⟩ : SearchRow))
      else none) := by
  unfold outRows
  apply filterMap_congr_mem
  intro r _
  by_cases hsrc : r.src = n.nid
  · rw [if_pos hsrc, if_pos hsrc]
    cases G.node? r.dst with
    | none => rfl
    | some m => rfl
  · rw [if_neg hsrc, if_neg hsrc]

theorem inRows_eq (G : Graph) (n : GNode) (s : ℚ) :
    inRows G n s = G.edges.filterMap (fun r =>
      if r.dst = n.nid then
        (G.node? r.src).map
          (fun m => (⟨m.name, m.nid, r.typ, r.eid, n.name, n.nid, s⟩ : SearchRow))
      else none) := by
  unfold inRows
  apply filterMap_congr_mem
  intro r _
  by_cases hdst : r.dst = n.nid
  · rw [if_pos hdst, if_pos hdst]
    cases G.node? r.src with
    | none => rfl
    | some m => rfl
  · rw [if_neg hdst, if_neg hdst]

theorem getAll_eq (u : String) (G : Graph) :
    getAll u G = G.edges.filterMap (fun r =>
      (G.node? r.src).bind (fun n2 => (G.node? r.dst).bind (fun m2 =>
        if n2.user_id == u && m2.user_id == u then
          some (⟨n2.name, r.typ, m2.name⟩ : GetAllRow)
        else none))) := by
  unfold getAll
  apply filterMap_congr_mem
  intro r _
  cases G.node? r.src with
  | none => rfl
  | some n2 =>
    cases G.node? r.dst with
    | none => rfl
    | some m2 => rfl

theorem outRows_deleteAll (A B : String) (hAB : A ≠ B) (g : Graph)
    (hwf : g.WF) (hcf : crossFree g = true) (n : GNode) (s : ℚ)
    (hn : n ∈ g.nodes) (hA : n.user_id = A) :
    outRows (deleteAll B g) n s = outRows g n s := by
  have hnd : (g.nodes.map GNode.nid).Nodup := hwf.1
  have howner : ∀ r ∈ g.edges, r.src = n.nid →
      ∃ m, g.node? r.dst = some m ∧ m.user_id = A := by
    intro r hr hsrc
    obtain ⟨n2, m, hs2, hd2, huid⟩ := crossFree_endpoints g hwf hcf r hr
    have hsrcn : g.node? r.src = some n :=
      (node?_eq_some_iff g hnd r.src n).mpr ⟨hn, hsrc.symm⟩
    have hn2 : n2 = n := by
      rw [hsrcn] at hs2
      exact (Option.some.inj hs2).symm
    refine ⟨m, hd2, ?_⟩
    rw [← huid, hn2, hA]
  have hkept : ∀ r ∈ g.edges, r.src = n.nid →
      (g.nodes.any (fun nb => nb.user_id == B && (nb.nid == r.src || nb.nid == r.dst))) =
        false := by
    intro r hr hsrc
    obtain ⟨m, hd2, hmA⟩ := howner r hr hsrc
    have hsrcn : g.node? r.src = some n :=
      (node?_eq_some_iff g hnd r.src n).mpr ⟨hn, hsrc.symm⟩
    exact edge_kept_deleteAll g hnd B r n m hsrcn hd2
      (by rw [hA]; exact hAB) (by rw [hmA]; exact hAB)
  rw [outRows_eq, outRows_eq]
  have hedges : (deleteAll B g).edges = g.edges.filter
      (fun r => !(g.nodes.any (fun nb =>
        nb.user_id == B && (nb.nid == r.src || nb.nid == r.dst)))) := rfl
  rw [hedges]
  have hnone : ∀ r ∈ g.edges,
      (!(g.nodes.any (fun nb => nb.user_id == B && (nb.nid == r.src || nb.nid == r.dst)))) =
        false →
      (if r.src = n.nid then
        ((deleteAll B g).node? r.dst).map
          (fun m => (⟨n.name, n.nid, r.typ, r.eid, m.name, m.nid, s⟩ : SearchRow))
      else none) = none := by
    intro r hr hq
    have hns : ¬ r.src = n.nid := by
      intro hsrc
      rw [hkept r hr hsrc] at hq
      simp at hq
    rw [if_neg hns]
  rw [filterMap_filter_sub _ _ _ hnone]
  apply filterMap_congr_mem
  intro r hr
  by_cases hsrc : r.src = n.nid
  · rw [if_pos hsrc, if_pos hsrc]
    obtain ⟨m, hm, hmA⟩ := howner r hr hsrc
    have hdel : (deleteAll B g).node? r.dst = some m := by
      have hq2 : (!(m.user_id == B)) = true := by
        rw [hmA]
        simp [hAB]
      exact node?_filter g (fun nb => !(nb.user_id == B)) r.dst m hnd hm hq2
    rw [hm, hdel]
  · rw [if_neg hsrc, if_neg hsrc]

theorem inRows_deleteAll (A B : String) (hAB : A ≠ B) (g : Graph)
    (hwf : g.WF) (hcf : crossFree g = true) (n : GNode) (s : ℚ)
    (hn : n ∈ g.nodes) (hA : n.user_id = A) :
    inRows (deleteAll B g) n s = inRows g n s := by
  have hnd : (g.nodes.map GNode.nid).Nodup := hwf.1
  have howner : ∀ r ∈ g.edges, r.dst = n.nid →
      ∃ m, g.node? r.src = some m ∧ m.user_id = A := by
    intro r hr hdst
    obtain ⟨m, n2, hs2, hd2, huid⟩ := crossFree_endpoints g hwf hcf r hr
    have hdstn : g.node? r.dst = some n :=
      (node?_eq_some_iff g hnd r.dst n).mpr ⟨hn, hdst.symm⟩
    have hn2 : n2 = n := by
      rw [hdstn] at hd2
      exact (Option.some.inj hd2).symm
    refine ⟨m, hs2, ?_⟩
    rw [huid, hn2, hA]
  have hkept : ∀ r ∈ g.edges, r.dst = n.nid →
      (g.nodes.any (fun nb => nb.user_id == B && (nb.nid == r.src || nb.nid == r.dst))) =
        false := by
    intro r hr hdst
    obtain ⟨m, hs2, hmA⟩ := howner r hr hdst
    have hdstn : g.node? r.dst = some n :=
      (node?_eq_some_iff g hnd r.dst n).mpr ⟨hn, hdst.symm⟩
    exact edge_kept_deleteAll g hnd B r m n hs2 hdstn
      (by rw [hmA]; exact hAB) (by rw [hA]; exact hAB)
  rw [inRows_eq, inRows_eq]
  have hedges : (deleteAll B g).edges = g.edges.filter
      (fun r => !(g.nodes.any (fun nb =>
        nb.user_id == B && (nb.nid == r.src || nb.nid == r.dst)))) := rfl
  rw [hedges]
  have hnone : ∀ r ∈ g.edges,
      (!(g.nodes.any (fun nb => nb.user_id == B && (nb.nid == r.src || nb.nid == r.dst)))) =
        false →
      (if r.dst = n.nid then
        ((deleteAll B g).node? r.src).map
          (fun m => (⟨m.name, m.nid, r.typ, r.eid, n.name, n.nid, s⟩ : SearchRow))
      else none) = none := by
    intro r hr hq
    have hns : ¬ r.dst = n.nid := by
      intro hdst
      rw [hkept r hr hdst] at hq
      simp at hq
    rw [if_neg hns]
  rw [filterMap_filter_sub _ _ _ hnone]
  apply filterMap_congr_mem
  intro r hr
  by_cases hdst : r.dst = n.nid
  · rw [if_pos hdst, if_pos hdst]
    obtain ⟨m, hm, hmA⟩ := howner r hr hdst
    have hdel : (deleteAll B g).node? r.src = some m := by
      have hq2 : (!(m.user_id == B)) = true := by
        rw [hmA]
        simp [hAB]
      exact node?_filter g (fun nb => !(nb.user_id == B)) r.src m hnd hm hq2
    rw [hm, hdel]
  · rw [if_neg hdst, if_neg hdst]

theorem searchQueryExec_deleteAll (e : List ℚ) (th : ℚ) (A B : String) (hAB : A ≠ B)
    (g : Graph) (hwf : g.WF) (hcf : crossFree g = true) :
    searchQueryExec e th A (deleteAll B g) = searchQueryExec e th A g := by
  simp only [searchQueryExec]
  rw [includedNodes_deleteAll e th A B hAB g]
  have h1 : (includedNodes e th A g).flatMap (fun p => outRows (deleteAll B g) p.1 p.2) =
      (includedNodes e th A g).flatMap (fun p => outRows g p.1 p.2) := by
    apply flatMap_congr_mem
    intro p hp
    have hm := (mem_includedNodes e th A g p.1 p.2).mp hp
    exact outRows_deleteAll A B hAB g hwf hcf p.1 p.2 hm.1 hm.2.1
  have h2 : (includedNodes e th A g).flatMap (fun p => inRows (deleteAll B g) p.1 p.2) =
      (includedNodes e th A g).flatMap (fun p => inRows g p.1 p.2) := by
    apply flatMap_congr_mem
    intro p hp
    have hm := (mem_includedNodes e th A g p.1 p.2).mp hp
    exact inRows_deleteAll A B hAB g hwf hcf p.1 p.2 hm.1 hm.2.1
  rw [h1, h2]

theorem getAll_deleteAll (A B : String) (hAB : A ≠ B) (g : Graph) (hwf : g.WF) :
    getAll A (deleteAll B g) = getAll A g := by
  have hnd : (g.nodes.map GNode.nid).Nodup := hwf.1
  have hend := hwf.2.2.1
  rw [getAll_eq, getAll_eq]
  have hedges : (deleteAll B g).edges = g.edges.filter
      (fun r => !(g.nodes.any (fun nb =>
        nb.user_id == B && (nb.nid == r.src || nb.nid == r.dst)))) := rfl
  rw [hedges]
  have hnone : ∀ r ∈ g.edges,
      (!(g.nodes.any (fun nb => nb.user_id == B && (nb.nid == r.src || nb.nid == r.dst)))) =
        false →
      (((deleteAll B g).node? r.src).bind (fun n2 => ((deleteAll B g).node? r.dst).bind
        (fun m2 => if n2.user_id == A && m2.user_id == A then
          some (⟨n2.name, r.typ, m2.name⟩ : GetAllRow) else none))) = none := by
    intro r hr hq
    obtain ⟨⟨ns0, hns0, hnsnid⟩, ⟨nd0, hnd0, hndnid⟩⟩ := hend r hr
    have hsrc : g.node? r.src = some ns0 :=
      (node?_eq_some_iff g hnd r.src ns0).mpr ⟨hns0, hnsnid⟩
    have hdst : g.node? r.dst = some nd0 :=
      (node?_eq_some_iff g hnd r.dst nd0).mpr ⟨hnd0, hndnid⟩
    have hq2 : (g.nodes.any (fun nb =>
        nb.user_id == B && (nb.nid == r.src || nb.nid == r.dst))) = true := by
      cases hany : g.nodes.any (fun nb =>
          nb.user_id == B && (nb.nid == r.src || nb.nid == r.dst)) with
      | false =>
        rw [hany] at hq
        simp at hq
      | true => rfl
    obtain ⟨nb, hnb, hpb⟩ := List.any_eq_true.mp hq2
    have hBn : nb.user_id = B ∧ (nb.nid = r.src ∨ nb.nid = r.dst) := by
      simpa using hpb
    have hinj := List.inj_on_of_nodup_map hnd
    rcases hBn.2 with hc | hc
    · have hx : nb = ns0 := hinj hnb hns0 (by rw [hc, hnsnid])
      have hsb : ns0.user_id = B := by
        rw [← hx]
        exact hBn.1
      have hdel : (deleteAll B g).node? r.src = none :=
        find?_nid_filter_none g.nodes _ r.src ns0 hnd hsrc (by simp [hsb])
      rw [hdel]
      rfl
    · have hx : nb = nd0 := hinj hnb hnd0 (by rw [hc, hndnid])
      have hdb : nd0.user_id = B := by
        rw [← hx]
        exact hBn.1
      have hdel : (deleteAll B g).node? r.dst = none :=
        find?_nid_filter_none g.nodes _ r.dst nd0 hnd hdst (by simp [hdb])
      rw [hdel]
      cases hds : (deleteAll B g).node? r.src with
      | none => rfl
      | some x => rfl
  rw [filterMap_filter_sub _ _ _ hnone]
  apply filterMap_congr_mem
  intro r hr
  obtain ⟨⟨ns0, hns0, hnsnid⟩, ⟨nd0, hnd0, hndnid⟩⟩ := hend r hr
  have hsrc : g.node? r.src = some ns0 :=
    (node?_eq_some_iff g hnd r.src ns0).mpr ⟨hns0, hnsnid⟩
  have hdst : g.node? r.dst = some nd0 :=
    (node?_eq_some_iff g hnd r.dst nd0).mpr ⟨hnd0, hndnid⟩
  rw [hsrc, hdst]
  by_cases hsb : ns0.user_id = B
  · have hdel : (deleteAll B g).node? r.src = none :=
      find?_nid_filter_none g.nodes _ r.src ns0 hnd hsrc (by simp [hsb])
    rw [hdel]
    have hcond : ¬ (ns0.user_id = A ∧ nd0.user_id = A) := by
      intro hco
      rw [hsb] at hco
      exact hAB hco.1.symm
    simp [hcond]
  · by_cases hdb : nd0.user_id = B
    · have hdels : (deleteAll B g).node? r.src = some ns0 :=
        node?_filter g _ r.src ns0 hnd hsrc (by simp [hsb])
      have hdel : (deleteAll B g).node? r.dst = none :=
        find?_nid_filter_none g.nodes _ r.dst nd0 hnd hdst (by simp [hdb])
      rw [hdels, hdel]
      have hcond : ¬ (ns0.user_id = A ∧ nd0.user_id = A) := by
        intro hco
        rw [hdb] at hco
        exact hAB hco.2.symm
      simp [hcond]
    · have h1 : (deleteAll B g).node? r.src = some ns0 :=
        node?_filter g _ r.src ns0 hnd hsrc (by simp [hsb])
      have h2 : (deleteAll B g).node? r.dst = some nd0 :=
        node?_filter g _ r.dst nd0 hnd hdst (by simp [hdb])
      rw [h1, h2]

theorem searchInternal_deleteAll (o : Oracles) (cfg : MConfig) (th : ℚ) (q A B : String)
    (g : Graph) (hAB : A ≠ B) (hwf : g.WF) (hcf : crossFree g = true) :
    (searchInternal o cfg th q A (deleteAll B g)).1 = (searchInternal o cfg th q A g).1 := by
  simp only [searchInternal]
  cases hc : collectSearchLists (o.llm (searchRequest cfg.llm_provider A q)).tool_calls with
  | error e => rfl
  | ok p =>
    dsimp only
    congr 1
    apply flatMap_congr_mem
    intro nm _
    exact searchQueryExec_deleteAll (o.embed nm) th A B hAB g hwf hcf

theorem searchOp_deleteAll (o : Oracles)
    (scorer : List (List String) → List String → List ℚ) (cfg : MConfig) (th : ℚ)
    (q A B : String) (g : Graph) (hAB : A ≠ B) (hwf : g.WF) (hcf : crossFree g = true) :
    searchOp o scorer cfg th q A (deleteAll B g) = searchOp o scorer cfg th q A g := by
  unfold searchOp
  rw [searchInternal_deleteAll o cfg th q A B g hAB hwf hcf]

theorem searchInternal_rows_owner (o : Oracles) (cfg : MConfig) (th : ℚ) (q A : String)
    (g : Graph) (hwf : g.WF) (hcf : crossFree g = true) :
    ∀ rows, (searchInternal o cfg th q A g).1 = Except.ok rows →
      ∀ row ∈ rows, ∃ ns ∈ g.nodes, ∃ nd ∈ g.nodes,
        ns.nid = row.source_id ∧ nd.nid = row.destination_id ∧
        ns.user_id = A ∧ nd.user_id = A := by
  intro rows hrows row hrow
  have hnd : (g.nodes.map GNode.nid).Nodup := hwf.1
  simp only [searchInternal] at hrows
  cases hc : collectSearchLists (o.llm (searchRequest cfg.llm_provider A q)).tool_calls with
  | error e =>
    rw [hc] at hrows
    simp at hrows
  | ok p =>
    rw [hc] at hrows
    dsimp only at hrows
    have hX := Except.ok.inj hrows
    subst hX
    rcases List.mem_flatMap.mp hrow with ⟨nm, _, hmem⟩
    rcases (mem_searchQueryExec (o.embed nm) th A g row).mp hmem with ⟨⟨n, s2⟩, hp, harm⟩
    have hinc := (mem_includedNodes (o.embed nm) th A g n s2).mp hp
    rcases harm with h | h
    · rcases (mem_outRows g n s2 row).mp h with ⟨r, hr, hsrc, m, hm, hroweq⟩
      subst hroweq
      obtain ⟨hmmem, hmnid⟩ := (node?_eq_some_iff g hnd r.dst m).mp hm
      obtain ⟨n2, m2, hs2, hd2, huid⟩ := crossFree_endpoints g hwf hcf r hr
      have hsrcn : g.node? r.src = some n :=
        (node?_eq_some_iff g hnd r.src n).mpr ⟨hinc.1, hsrc.symm⟩
      have hn2 : n2 = n := by
        rw [hsrcn] at hs2
        exact (Option.some.inj hs2).symm
      have hm2 : m2 = m := by
        rw [hm] at hd2
        exact (Option.some.inj hd2).symm
      refine ⟨n, hinc.1, m, hmmem, rfl, rfl, hinc.2.1, ?_⟩
      rw [← hm2, ← huid, hn2, hinc.2.1]
    · rcases (mem_inRows g n s2 row).mp h with ⟨r, hr, hdstEq, m, hm, hroweq⟩
      subst hroweq
      obtain ⟨hmmem, hmnid⟩ := (node?_eq_some_iff g hnd r.src m).mp hm
      obtain ⟨n2, m2, hs2, hd2, huid⟩ := crossFree_endpoints g hwf hcf r hr
      have hdstn : g.node? r.dst = some n :=
        (node?_eq_some_iff g hnd r.dst n).mpr ⟨hinc.1, hdstEq.symm⟩
      have hn2 : m2 = n := by
        rw [hdstn] at hd2
        exact (Option.some.inj hd2).symm
      have hm2 : n2 = m := by
        rw [hm] at hs2
        exact (Option.some.inj hs2).symm
      refine ⟨m, hmmem, n, hinc.1, rfl, rfl, ?_, hinc.2.1⟩
      rw [← hm2, huid, hn2, hinc.2.1]

theorem getAll_rows_owner (A : String) (g : Graph) :
    ∀ row ∈ getAll A g, ∃ ns ∈ g.nodes, ∃ nd ∈ g.nodes,
      ns.name = row.source ∧ nd.name = row.target ∧ ns.user_id = A ∧ nd.user_id = A := by
  intro row hrow
  rw [getAll_eq] at hrow
  rcases List.mem_filterMap.mp hrow with ⟨r, hr, hfr⟩
  cases hs : g.node? r.src with
  | none =>
    rw [hs] at hfr
    simp at hfr
  | some n2 =>
    rw [hs] at hfr
    cases hd : g.node? r.dst with
    | none =>
      rw [hd] at hfr
      simp at hfr
    | some m2 =>
      rw [hd] at hfr
      simp only [Option.some_bind] at hfr
      by_cases hcond : (n2.user_id == A && m2.user_id == A) = true
      · rw [if_pos hcond] at hfr
        have hrow2 := Option.some.inj hfr
        obtain ⟨h1, h2⟩ : n2.user_id = A ∧ m2.user_id = A := by simpa using hcond
        have hn2mem : n2 ∈ g.nodes := List.mem_of_find?_eq_some hs
        have hm2mem : m2 ∈ g.nodes := List.mem_of_find?_eq_some hd
        refine ⟨n2, hn2mem, m2, hm2mem, ?_, ?_, h1, h2⟩
        · rw [← hrow2]
        · rw [← hrow2]
      · rw [if_neg hcond] at hfr
        exact Option.noConfusion hfr

theorem addOp_graph_unchanged (o : Oracles) (cfg : MConfig) (th : ℚ) (data u : String)
    (now : ℕ) (g : Graph) : (addOp o cfg none th data u now g).2.1 = g := by
  simp only [addOp]
  cases hs : (searchInternal o cfg th data u g).1 with
  | error e => rfl
  | ok rows => simp [pyReplace]

/-- A well-formed store without cross-tenant edges: alice works at acme, both
owned by user A; dave is owned by user B. -/
def gC2 : Graph :=
  ⟨[⟨0, ["person"], "alice", "A", some [1], some 0⟩,
    ⟨1, ["org"], "acme", "A", none, none⟩,
    ⟨2, ["person"], "dave", "B", some [1], some 0⟩],
   [⟨3, 0, 1, "works_at", some 0⟩], 4⟩

/-- C2 counterexample: on a store holding a cross-tenant edge (alice owned by
A linked to bob owned by B — a state nothing in the store rules out), `search`
scoped to A returns a row naming B-owned `bob`, and removing all of B-owned
data changes the result of the A-scoped operation to empty. -/
theorem claim_C2_counterexample :
    ("A" : String) ≠ "B" ∧
    (∀ n ∈ gW1.nodes, n.name = "bob" → n.user_id = "B") ∧
    searchOp oW1 flatScorer ⟨"openai", none⟩ (7 / 10) "q" "A" gW1 =
      Except.ok [⟨"alice", "knows", "bob"⟩] ∧
    searchOp oW1 flatScorer ⟨"openai", none⟩ (7 / 10) "q" "A" (deleteAll "B" gW1) =
      Except.ok [] := by
  refine ⟨by decide, by decide, by decide, by decide⟩

/-- C2 (amended): on well-formed stores free of cross-tenant edges, the
operations scoped to user A neither read, return nor mutate user B's data:
`search` and `get_all` scoped to A are unchanged by removing all of B's data,
their rows mention only A-owned nodes, `delete_all` scoped to A removes no
node of B and removes only edges touching an A-owned node, and `add` (whose
`self.user_id` is always `None`) mutates nothing at all. -/
theorem claim_C2 (o : Oracles) (scorer : List (List String) → List String → List ℚ)
    (cfg : MConfig) (th : ℚ) (q data : String) (now : ℕ) (A B : String) (g : Graph)
    (hAB : A ≠ B) (hwf : g.WF) (hcf : crossFree g = true) :
    searchOp o scorer cfg th q A (deleteAll B g) = searchOp o scorer cfg th q A g ∧
    getAll A (deleteAll B g) = getAll A g ∧
    (∀ rows, (searchInternal o cfg th q A g).1 = Except.ok rows →
      ∀ row ∈ rows, ∃ ns ∈ g.nodes, ∃ nd ∈ g.nodes,
        ns.nid = row.source_id ∧ nd.nid = row.destination_id ∧
        ns.user_id = A ∧ nd.user_id = A) ∧
    (∀ row ∈ getAll A g, ∃ ns ∈ g.nodes, ∃ nd ∈ g.nodes,
      ns.name = row.source ∧ nd.name = row.target ∧ ns.user_id = A ∧ nd.user_id = A) ∧
    (∀ n ∈ g.nodes, n.user_id = B → n ∈ (deleteAll A g).nodes) ∧
    (∀ r ∈ g.edges, r ∉ (deleteAll A g).edges →
      ∃ nb ∈ g.nodes, nb.user_id = A ∧ (nb.nid = r.src ∨ nb.nid = r.dst)) ∧
    (addOp o cfg none th data A now g).2.1 = g := by
  refine ⟨searchOp_deleteAll o scorer cfg th q A B g hAB hwf hcf,
          getAll_deleteAll A B hAB g hwf,
          searchInternal_rows_owner o cfg th q A g hwf hcf,
          getAll_rows_owner A g,
          ?_, ?_,
          addOp_graph_unchanged o cfg th data A now g⟩
  · intro n hn hB
    apply List.mem_filter.mpr
    refine ⟨hn, ?_⟩
    rw [hB]
    simp [Ne.symm hAB]
  · intro r hr hnot
    by_contra hno
    push_neg at hno
    apply hnot
    apply List.mem_filter.mpr
    refine ⟨hr, ?_⟩
    rw [Bool.not_eq_true']
    rw [List.any_eq_false]
    intro nb hnb hp
    have hp2 : nb.user_id = A ∧ (nb.nid = r.src ∨ nb.nid = r.dst) := by simpa using hp
    rcases hp2.2 with hc | hc
    · exact (hno nb hnb hp2.1).1 hc
    · exact (hno nb hnb hp2.1).2 hc

/-- C2 witness: the amended isolation property at a concrete store and
oracle, with every hypothesis discharged concretely. -/
theorem claim_C2_witness :
    (("A" : String) ≠ "B" ∧ gC2.WF ∧ crossFree gC2 = true) ∧
    (searchOp oW1 flatScorer ⟨"openai", none⟩ (7 / 10) "q" "A" (deleteAll "B" gC2) =
       searchOp oW1 flatScorer ⟨"openai", none⟩ (7 / 10) "q" "A" gC2 ∧
     getAll "A" (deleteAll "B" gC2) = getAll "A" gC2 ∧
     (∀ rows, (searchInternal oW1 ⟨"openai", none⟩ (7 / 10) "q" "A" gC2).1 =
        Except.ok rows →
      ∀ row ∈ rows, ∃ ns ∈ gC2.nodes, ∃ nd ∈ gC2.nodes,
        ns.nid = row.source_id ∧ nd.nid = row.destination_id ∧
        ns.user_id = "A" ∧ nd.user_id = "A") ∧
     (∀ row ∈ getAll "A" gC2, ∃ ns ∈ gC2.nodes, ∃ nd ∈ gC2.nodes,
       ns.name = row.source ∧ nd.name = row.target ∧
       ns.user_id = "A" ∧ nd.user_id = "A") ∧
     (∀ n ∈ gC2.nodes, n.user_id = "B" → n ∈ (deleteAll "A" gC2).nodes) ∧
     (∀ r ∈ gC2.edges, r ∉ (deleteAll "A" gC2).edges →
       ∃ nb ∈ gC2.nodes, nb.user_id = "A" ∧ (nb.nid = r.src ∨ nb.nid = r.dst)) ∧
     (addOp oW1 ⟨"openai", none⟩ none (7 / 10) "data" "A" 5 gC2).2.1 = gC2) := by
  refine ⟨⟨by decide, by decide, by decide⟩, ?_⟩
  exact claim_C2 oW1 flatScorer ⟨"openai", none⟩ (7 / 10) "q" "data" 5 "A" "B" gC2
    (by decide) (by decide) (by decide)

end Mem0
